import Mathlib

/-!
Timed toggle scheduler of `visual-testing/flashing-light-video.cpp`.

A shallow embedding of `drawDot`, `runMode` and `flashingWhiteDot` and the
properties of their pacing, toggling and frequency measurement.

Conventions of the embedding.

* Time is exact: a `steady_clock` instant and a `double` number of seconds are
  both a rational `ℚ`.  A quotient of a report whose divisor is zero has no
  rational value and is `none` (`fdiv`).
* A `double` has two zeros and `ℚ` has one: a frequency argument is its rational
  value `frequencyHz` together with the flag `frequencyNegativeZero`, which says
  that an argument of value 0 is `-0.0`.  The frame duration `1.0 / frequencyHz`
  is a `Duration`: a rational, `+inf` at `0.0`, `-inf` at `-0.0` (`reciprocal`).
* The clock is a function `clock : ℕ → ℚ`: `clock k` is what the `k`-th call of
  `std::chrono::steady_clock::now()` returns (counting from 0).  The state
  carries `cursor`, the number of clock reads made so far.
* The SDL event queue is a list of events in arrival order, each with the
  number of clock reads after which it is in the queue.  `SDL_PollEvent` takes
  the head of the list if it has arrived.
* `int` variables are unbounded `Int`.
* What the function does is recorded in `out`: a toggle of a channel (with the
  index of the clock read that stamped it), a printed frequency (with the
  operands it was computed from), a presented frame (with the flags handed to
  `drawCheckerboard` and to the red `drawDot`).
* The busy-wait and the main loop are bounded by `fuel`; a run that needs more
  ends with status `outOfFuel`.
-/

namespace FlashingLightVideo

/-! ## Events -/

/-- An SDL event, as far as the loops look at it. -/
inductive Event where
  | quit
  | keydown (sym : Int)
  | other
deriving DecidableEq, Repr

/-- The key code of Escape. -/
def SDLK_ESCAPE : Int := 27

/-- The test of the event loop: `SDL_QUIT`, or `SDL_KEYDOWN` with the Escape key. -/
def isCancel : Event → Bool
  | .quit => true
  | .keydown sym => sym == SDLK_ESCAPE
  | .other => false

/-- The loop `while (SDL_PollEvent(&event))`: takes arrived events off the queue
until it is empty (`false`) or one of them cancels the mode (`true`). -/
def pollEvents (cursor : Nat) : List (Nat × Event) → Bool × List (Nat × Event)
  | [] => (false, [])
  | (arrival, ev) :: rest =>
    if cursor < arrival then (false, (arrival, ev) :: rest)
    else if isCancel ev then (true, rest)
    else pollEvents cursor rest

/-! ## Arithmetic on seconds -/

/-- Division of two `double`s over exact arithmetic; `none` when the divisor is zero. -/
def fdiv (a b : ℚ) : Option ℚ :=
  if b = 0 then none else some (a / b)

/-- A frame duration in seconds as a `double`: a rational, or one of the two
infinities. -/
inductive Duration where
  | negInf
  | finite (seconds : ℚ)
  | posInf
deriving DecidableEq, Repr

/-- The division `1.0 / frequencyHz` of a `double`: `+inf` at `0.0` and `-inf` at
`-0.0`, the zero that `negativeZero` marks. -/
def reciprocal (frequencyHz : ℚ) (negativeZero : Bool) : Duration :=
  if frequencyHz = 0 then
    if negativeZero then Duration.negInf else Duration.posInf
  else Duration.finite (1 / frequencyHz)

/-- The comparison `d < frameDuration` of a finite `d` with a frame duration. -/
def beforeFrame (d : ℚ) : Duration → Bool
  | Duration.negInf => false
  | Duration.finite frameDuration => decide (d < frameDuration)
  | Duration.posInf => true

/-- The two divisions of a report: `averagePeriod = total / count`, `freq = 1.0 / averagePeriod`. -/
def measuredFreq (totalToggleDuration : ℚ) (toggleCount : Int) : Option ℚ :=
  match fdiv totalToggleDuration (toggleCount : ℚ) with
  | none => none
  | some averagePeriod => fdiv 1 averagePeriod

/-! ## drawDot -/

/-- The points `drawDot` hands to `SDL_RenderDrawPoint`, in order. -/
def drawDot (x y radius : Int) (visible : Bool) : List (Int × Int) :=
  if !visible then []
  else
    (List.range (radius * 2).toNat).flatMap fun w =>
      (List.range (radius * 2).toNat).filterMap fun h =>
        let dx := radius - (w : Int)
        let dy := radius - (h : Int)
        if dx * dx + dy * dy ≤ radius * radius then some (x + dx, y + dy) else none

/-! ## runMode -/

/-- The two flashing channels of `runMode`. -/
inductive Label where
  | checkerboard
  | redDot
deriving DecidableEq, Repr

/-- A printed frequency `freq`, with the values it was computed from: the
timestamp of the toggle, the toggle count and the accumulated duration that are
divided, and the time since the previous print. -/
structure Report where
  nowToggle : ℚ
  toggleCount : Int
  totalToggleDuration : ℚ
  timeSinceLastPrint : ℚ
  freq : Option ℚ
deriving DecidableEq, Repr

/-- What a run does, in order. -/
inductive Output where
  | toggle (label : Label) (readIndex : Nat) (nowToggle : ℚ)
  | report (label : Label) (r : Report)
  | present (now : ℚ) (invertColors : Bool) (redDotVisible : Bool)
deriving DecidableEq, Repr

/-- The arguments of `runMode` (the renderer apart).  The `double` argument
`frequencyHz` is its rational value and, for the value 0, the flag
`frequencyNegativeZero` that tells `-0.0` from `0.0`. -/
structure Config where
  windowWidth : Int
  windowHeight : Int
  flashCheckerboard : Bool
  flashRedDot : Bool
  durationSeconds : Int
  frequencyHz : ℚ
  frequencyNegativeZero : Bool
deriving Repr

/-- How a loop ends: `running` is an iteration that goes on to the next one. -/
inductive Status where
  | running
  | cancelled
  | expired
  | outOfFuel
deriving DecidableEq, Repr

/-- The local variables of `runMode`, the position in the clock and in the event
queue, and the record of what was done. -/
structure State where
  startTime : ℚ
  lastFrameTime : ℚ
  checkerboardState : Bool
  redDotVisible : Bool
  checkerboardToggleCount : Int
  checkerboardTotalToggleDuration : ℚ
  checkerboardLastToggleTime : ℚ
  checkerboardFreqPrintTime : ℚ
  redDotToggleCount : Int
  redDotTotalToggleDuration : ℚ
  redDotLastToggleTime : ℚ
  redDotFreqPrintTime : ℚ
  cursor : Nat
  pending : List (Nat × Event)
  out : List Output
deriving Repr

/-- The value `frameDuration = 1.0 / frequencyHz`. -/
def frameDuration (cfg : Config) : Duration :=
  reciprocal cfg.frequencyHz cfg.frequencyNegativeZero

/-- The state before the first iteration: one clock read for `startTime`. -/
def initState (clock : Nat → ℚ) (events : List (Nat × Event)) : State where
  startTime := clock 0
  lastFrameTime := clock 0
  checkerboardState := false
  redDotVisible := false
  checkerboardToggleCount := 0
  checkerboardTotalToggleDuration := 0
  checkerboardLastToggleTime := clock 0
  checkerboardFreqPrintTime := clock 0
  redDotToggleCount := 0
  redDotTotalToggleDuration := 0
  redDotLastToggleTime := clock 0
  redDotFreqPrintTime := clock 0
  cursor := 1
  pending := events
  out := []

/-- The busy-wait `while (now - lastFrameTime < frameDuration) now = now()`, entered
with `now` already read; gives the `now` that leaves the loop and the new cursor. -/
def busyWait (clock : Nat → ℚ) (frameDuration : Duration) (lastFrameTime : ℚ) :
    Nat → ℚ → Nat → Option (ℚ × Nat)
  | 0, _, _ => none
  | fuel + 1, now, cursor =>
    if beforeFrame (now - lastFrameTime) frameDuration then
      busyWait clock frameDuration lastFrameTime fuel (clock cursor) (cursor + 1)
    else some (now, cursor)

/-- The block `if (flashCheckerboard) { ... }`. -/
def toggleCheckerboard (cfg : Config) (clock : Nat → ℚ) (s : State) : State :=
  if cfg.flashCheckerboard then
    let nowToggle := clock s.cursor
    let toggleDuration := nowToggle - s.checkerboardLastToggleTime
    let total := s.checkerboardTotalToggleDuration + toggleDuration
    let count := s.checkerboardToggleCount + 1
    let timeSinceLastPrint := nowToggle - s.checkerboardFreqPrintTime
    let s1 : State :=
      { s with
        checkerboardState := !s.checkerboardState
        checkerboardTotalToggleDuration := total
        checkerboardToggleCount := count
        checkerboardLastToggleTime := nowToggle
        cursor := s.cursor + 1
        out := s.out ++ [Output.toggle Label.checkerboard s.cursor nowToggle] }
    if 1 ≤ timeSinceLastPrint ∧ 0 < count then
      { s1 with
        checkerboardToggleCount := 0
        checkerboardTotalToggleDuration := 0
        checkerboardFreqPrintTime := nowToggle
        out := s1.out ++ [Output.report Label.checkerboard
          ⟨nowToggle, count, total, timeSinceLastPrint, measuredFreq total count⟩] }
    else s1
  else s

/-- The block `if (flashRedDot) { ... } else { redDotVisible = true; }`. -/
def toggleRedDot (cfg : Config) (clock : Nat → ℚ) (s : State) : State :=
  if cfg.flashRedDot then
    let nowToggle := clock s.cursor
    let toggleDuration := nowToggle - s.redDotLastToggleTime
    let total := s.redDotTotalToggleDuration + toggleDuration
    let count := s.redDotToggleCount + 1
    let timeSinceLastPrint := nowToggle - s.redDotFreqPrintTime
    let s1 : State :=
      { s with
        redDotVisible := !s.redDotVisible
        redDotTotalToggleDuration := total
        redDotToggleCount := count
        redDotLastToggleTime := nowToggle
        cursor := s.cursor + 1
        out := s.out ++ [Output.toggle Label.redDot s.cursor nowToggle] }
    if 1 ≤ timeSinceLastPrint ∧ 0 < count then
      { s1 with
        redDotToggleCount := 0
        redDotTotalToggleDuration := 0
        redDotFreqPrintTime := nowToggle
        out := s1.out ++ [Output.report Label.redDot
          ⟨nowToggle, count, total, timeSinceLastPrint, measuredFreq total count⟩] }
    else s1
  else { s with redDotVisible := true }

/-- Clear, `drawCheckerboard(..., checkerboardState)`, the black dot, the red
`drawDot(..., redDotVisible)` and `SDL_RenderPresent`. -/
def renderFrame (now : ℚ) (s : State) : State :=
  { s with out := s.out ++ [Output.present now s.checkerboardState s.redDotVisible] }

/-- The part of an iteration from the first toggle block to `SDL_RenderPresent`. -/
def frameBody (cfg : Config) (clock : Nat → ℚ) (now : ℚ) (s : State) : State :=
  renderFrame now (toggleRedDot cfg clock (toggleCheckerboard cfg clock s))

/-- One iteration of `while (running)`. -/
def iteration (cfg : Config) (clock : Nat → ℚ) (fuel : Nat) (s : State) : Status × State :=
  match pollEvents s.cursor s.pending with
  | (true, rest) => (Status.cancelled, { s with pending := rest })
  | (false, rest) =>
    match busyWait clock (frameDuration cfg) s.lastFrameTime fuel (clock s.cursor)
        (s.cursor + 1) with
    | none => (Status.outOfFuel, { s with pending := rest })
    | some (now, cursor) =>
      let s1 : State := { s with pending := rest, lastFrameTime := now, cursor := cursor }
      let s2 := frameBody cfg clock now s1
      if (cfg.durationSeconds : ℚ) ≤ now - s2.startTime then (Status.expired, s2)
      else (Status.running, s2)

/-- The loop `while (running)`: `spin` bounds each busy-wait, the second number
bounds the iterations. -/
def runLoop (cfg : Config) (clock : Nat → ℚ) (spin : Nat) : Nat → State → Status × State
  | 0, s => (Status.outOfFuel, s)
  | fuel + 1, s =>
    match iteration cfg clock spin s with
    | (Status.running, s1) => runLoop cfg clock spin fuel s1
    | r => r

/-- The function `runMode` on a clock and an event queue. -/
def runMode (cfg : Config) (clock : Nat → ℚ) (events : List (Nat × Event)) (fuel : Nat) :
    Status × State :=
  runLoop cfg clock fuel fuel (initState clock events)

/-! ## flashingWhiteDot -/

/-- The local variables of `flashingWhiteDot`, the position in the clock and in
the event queue, and the presented frames: the `now` of the frame and the flag
handed to the flashing `drawDot`. -/
structure WhiteDotState where
  startTime : ℚ
  lastFrameTime : ℚ
  dotVisible : Bool
  cursor : Nat
  pending : List (Nat × Event)
  out : List (ℚ × Bool)
deriving Repr

/-- One iteration of the loop of `flashingWhiteDot`. -/
def whiteDotIteration (durationSeconds : Int) (frequencyHz : ℚ) (negativeZero : Bool)
    (clock : Nat → ℚ) (fuel : Nat) (s : WhiteDotState) : Status × WhiteDotState :=
  match pollEvents s.cursor s.pending with
  | (true, rest) => (Status.cancelled, { s with pending := rest })
  | (false, rest) =>
    match busyWait clock (reciprocal frequencyHz negativeZero) s.lastFrameTime fuel
        (clock s.cursor) (s.cursor + 1) with
    | none => (Status.outOfFuel, { s with pending := rest })
    | some (now, cursor) =>
      let dotVisible := !s.dotVisible
      let s1 : WhiteDotState :=
        { s with
          pending := rest
          lastFrameTime := now
          cursor := cursor
          dotVisible := dotVisible
          out := s.out ++ [(now, dotVisible)] }
      if (durationSeconds : ℚ) ≤ now - s1.startTime then (Status.expired, s1)
      else (Status.running, s1)

/-- The loop of `flashingWhiteDot`. -/
def whiteDotLoop (durationSeconds : Int) (frequencyHz : ℚ) (negativeZero : Bool)
    (clock : Nat → ℚ) (spin : Nat) : Nat → WhiteDotState → Status × WhiteDotState
  | 0, s => (Status.outOfFuel, s)
  | fuel + 1, s =>
    match whiteDotIteration durationSeconds frequencyHz negativeZero clock spin s with
    | (Status.running, s1) =>
      whiteDotLoop durationSeconds frequencyHz negativeZero clock spin fuel s1
    | r => r

/-- The function `flashingWhiteDot` on a clock and an event queue; `negativeZero`
says that a `frequencyHz` of value 0 is `-0.0`. -/
def flashingWhiteDot (durationSeconds : Int) (frequencyHz : ℚ) (negativeZero : Bool)
    (clock : Nat → ℚ) (events : List (Nat × Event)) (fuel : Nat) : Status × WhiteDotState :=
  whiteDotLoop durationSeconds frequencyHz negativeZero clock fuel fuel
    { startTime := clock 0, lastFrameTime := clock 0, dotVisible := false, cursor := 1,
      pending := events, out := [] }

/-! ## Reading the record of a run -/

/-- The timestamps of the toggles of a channel, in order. -/
def toggleTimes (l : Label) (out : List Output) : List ℚ :=
  out.filterMap fun o =>
    match o with
    | Output.toggle l1 _ t => if l1 = l then some t else none
    | _ => none

/-- The indices of the clock reads that stamped the toggles of a channel, in order. -/
def toggleReads (l : Label) (out : List Output) : List Nat :=
  out.filterMap fun o =>
    match o with
    | Output.toggle l1 i _ => if l1 = l then some i else none
    | _ => none

/-- The frequency reports of a channel, in order. -/
def reports (l : Label) (out : List Output) : List Report :=
  out.filterMap fun o =>
    match o with
    | Output.report l1 r => if l1 = l then some r else none
    | _ => none

/-- The presented frames, in order: `now`, the flag handed to `drawCheckerboard`,
the flag handed to the red `drawDot`. -/
def frames (out : List Output) : List (ℚ × Bool × Bool) :=
  out.filterMap fun o =>
    match o with
    | Output.present now inv vis => some (now, inv, vis)
    | _ => none

/-! ## The measurement of one channel

The two toggle blocks of `runMode` keep the same four variables and update them
the same way.  `Meter` is that common part; `checkerboardMeter_toggle` and
`redDotMeter_toggle` below show that each block is `Meter.step`. -/

/-- The measurement variables of one channel. -/
structure Meter where
  toggleCount : Int
  totalToggleDuration : ℚ
  lastToggleTime : ℚ
  freqPrintTime : ℚ
deriving DecidableEq, Repr

/-- The measurement part of a toggle block at timestamp `nowToggle`. -/
def Meter.step (m : Meter) (nowToggle : ℚ) : Meter × Option Report :=
  let toggleDuration := nowToggle - m.lastToggleTime
  let total := m.totalToggleDuration + toggleDuration
  let count := m.toggleCount + 1
  let timeSinceLastPrint := nowToggle - m.freqPrintTime
  if 1 ≤ timeSinceLastPrint ∧ 0 < count then
    ({ toggleCount := 0, totalToggleDuration := 0, lastToggleTime := nowToggle,
       freqPrintTime := nowToggle },
     some ⟨nowToggle, count, total, timeSinceLastPrint, measuredFreq total count⟩)
  else
    ({ toggleCount := count, totalToggleDuration := total, lastToggleTime := nowToggle,
       freqPrintTime := m.freqPrintTime }, none)

/-- The measurement over a sequence of toggle timestamps, and its reports. -/
def Meter.run (m : Meter) : List ℚ → Meter × List Report
  | [] => (m, [])
  | t :: ts => ((Meter.run (m.step t).1 ts).1, (m.step t).2.toList ++ (Meter.run (m.step t).1 ts).2)

/-- The measurement variables at mode start. -/
def Meter.init (startTime : ℚ) : Meter :=
  { toggleCount := 0, totalToggleDuration := 0, lastToggleTime := startTime,
    freqPrintTime := startTime }

/-- The checkerboard measurement variables of a state. -/
def checkerboardMeter (s : State) : Meter :=
  { toggleCount := s.checkerboardToggleCount
    totalToggleDuration := s.checkerboardTotalToggleDuration
    lastToggleTime := s.checkerboardLastToggleTime
    freqPrintTime := s.checkerboardFreqPrintTime }

/-- The red dot measurement variables of a state. -/
def redDotMeter (s : State) : Meter :=
  { toggleCount := s.redDotToggleCount
    totalToggleDuration := s.redDotTotalToggleDuration
    lastToggleTime := s.redDotLastToggleTime
    freqPrintTime := s.redDotFreqPrintTime }

/-- The measurement variables of a channel. -/
def meterOf : Label → State → Meter
  | Label.checkerboard => checkerboardMeter
  | Label.redDot => redDotMeter

/-- Whether a channel flashes in a mode. -/
def flashes (cfg : Config) : Label → Bool
  | Label.checkerboard => cfg.flashCheckerboard
  | Label.redDot => cfg.flashRedDot

/-! ## Predicates of the statements, and inputs for examples -/

/-- The meter of a channel follows its toggle timestamps, and the reports of the
channel are the reports of the meter. -/
def Linked (l : Label) (start : ℚ) (s : State) : Prop :=
  meterOf l s = (Meter.run (Meter.init start) (toggleTimes l s.out)).1 ∧
    reports l s.out = (Meter.run (Meter.init start) (toggleTimes l s.out)).2

/-- The invariant of the measurement variables: the accumulated duration is the
time from the last print to the last toggle, and the count is not negative. -/
def Meter.Consistent (m : Meter) : Prop :=
  m.totalToggleDuration = m.lastToggleTime - m.freqPrintTime ∧ 0 ≤ m.toggleCount

/-- What holds of the reports of a channel, the previous print being at `p`:
each report is at least one second after the previous print, divides a count of
at least one and the time since the previous print, and prints their quotient. -/
def WellFormedReports : ℚ → List Report → Prop
  | _, [] => True
  | p, r :: rs =>
    (r.timeSinceLastPrint = r.nowToggle - p ∧ 1 ≤ r.timeSinceLastPrint ∧ 1 ≤ r.toggleCount ∧
      r.totalToggleDuration = r.timeSinceLastPrint ∧
      r.freq = some ((r.toggleCount : ℚ) / r.timeSinceLastPrint)) ∧
    WellFormedReports r.nowToggle rs

/-- The toggle block of a channel. -/
def toggleBlock : Label → Config → (Nat → ℚ) → State → State
  | Label.checkerboard => toggleCheckerboard
  | Label.redDot => toggleRedDot

/-- A mode for examples: both channels flash at 1 Hz for 2 seconds. -/
def demoConfig : Config :=
  { windowWidth := 800, windowHeight := 600, flashCheckerboard := true, flashRedDot := true,
    durationSeconds := 2, frequencyHz := 1,
    frequencyNegativeZero := false }

/-- A clock for examples: the `k`-th read is `k` seconds. -/
def secondsClock : Nat → ℚ := fun k => (k : ℚ)

/-- A mode for examples: only the checkerboard flashes, at 1 Hz for 2 seconds. -/
def boardOnlyConfig : Config :=
  { windowWidth := 800, windowHeight := 600, flashCheckerboard := true, flashRedDot := false,
    durationSeconds := 2, frequencyHz := 1,
    frequencyNegativeZero := false }

/-- A mode for examples: only the red dot flashes, at 1 Hz for 2 seconds. -/
def dotOnlyConfig : Config :=
  { windowWidth := 800, windowHeight := 600, flashCheckerboard := false, flashRedDot := true,
    durationSeconds := 2, frequencyHz := 1,
    frequencyNegativeZero := false }

/-- The clock reads of one iteration: the read that ends the busy-wait and one per
flashing channel. -/
def readsPerFrame (cfg : Config) : Nat :=
  1 + (if cfg.flashCheckerboard then 1 else 0) + (if cfg.flashRedDot then 1 else 0)

/-- A clock that starts at 0 and advances by exactly one frame period per
iteration of a mode that reads it `r` times per iteration: read `k ≥ 1` belongs
to iteration `⌈k / r⌉` and is stamped `⌈k / r⌉ / frequencyHz`. -/
def pacedClock (r : Nat) (frequencyHz : ℚ) : Nat → ℚ :=
  fun k => (((k + r - 1) / r : Nat) : ℚ) / frequencyHz

/-- A mode for examples: the checkerboard flashes and the frequency is the
`double` `-0.0`. -/
def negativeZeroConfig : Config :=
  { windowWidth := 800, windowHeight := 600, flashCheckerboard := true, flashRedDot := false,
    durationSeconds := 0, frequencyHz := 0, frequencyNegativeZero := true }

/-- A mode for examples: the checkerboard flashes and the frequency is -1 Hz. -/
def negativeConfig : Config :=
  { windowWidth := 800, windowHeight := 600, flashCheckerboard := true, flashRedDot := false,
    durationSeconds := 0, frequencyHz := -1,
    frequencyNegativeZero := false }

/-- The cursor after `n` iterations of a run in which the frame wait of iteration
`n` ended at the clock read `idx n`. -/
def cursorAfter (cfg : Config) (idx : Nat → Nat) (n : Nat) : Nat :=
  if n = 0 then 1 else idx n + readsPerFrame cfg

/-- The clock paces `N` frames exactly: for `n < N`, the frame wait of iteration
`n + 1` ends at the clock read `idx (n + 1)`, which is stamped `(n + 1) / frequencyHz`
after mode start, and the reads of that wait before it are less than one frame
period after the stamp of frame `n`. -/
def Paced (cfg : Config) (clock : Nat → ℚ) (idx : Nat → Nat) (N : Nat) : Prop :=
  ∀ n, n < N →
    cursorAfter cfg idx n ≤ idx (n + 1) ∧
    (∀ k, cursorAfter cfg idx n ≤ k → k < idx (n + 1) →
      clock k - (clock 0 + (n : ℚ) / cfg.frequencyHz) < 1 / cfg.frequencyHz) ∧
    clock (idx (n + 1)) = clock 0 + ((n : ℚ) + 1) / cfg.frequencyHz

/-- The state of a paced run after `n` iterations. -/
def AfterFrames (cfg : Config) (clock : Nat → ℚ) (idx : Nat → Nat) (n : Nat) (s : State) : Prop :=
  s.startTime = clock 0 ∧ s.lastFrameTime = clock 0 + (n : ℚ) / cfg.frequencyHz ∧
    s.cursor = cursorAfter cfg idx n ∧ (∀ x ∈ s.pending, isCancel x.2 = false) ∧
    (frames s.out).length = n ∧
    ∀ l, (toggleTimes l s.out).length = if flashes cfg l then n else 0

/-- The mode of the scenario: both channels flash at 15 Hz for 2 seconds. -/
def scenarioConfig : Config :=
  { windowWidth := 800, windowHeight := 600, flashCheckerboard := true, flashRedDot := true,
    durationSeconds := 2, frequencyHz := 15,
    frequencyNegativeZero := false }

/-! # Properties -/

/-! ## How the loop preserves a property of the state -/

theorem runLoop_inv (cfg : Config) (clock : Nat → ℚ) (spin : Nat) (J : State → Prop)
    (hJ : ∀ s, J s → J (iteration cfg clock spin s).2) :
    ∀ (fuel : Nat) (s : State), J s → J (runLoop cfg clock spin fuel s).2 := by
  intro fuel
  induction fuel with
  | zero => intro s hs; simpa [runLoop] using hs
  | succ n ih =>
    intro s hs
    have h1 := hJ s hs
    unfold runLoop
    rcases hit : iteration cfg clock spin s with ⟨st, s1⟩
    rw [hit] at h1
    cases st
    · exact ih s1 h1
    · exact h1
    · exact h1
    · exact h1

theorem iteration_inv (cfg : Config) (clock : Nat → ℚ) (spin : Nat) (J : State → Prop)
    (hpoll : ∀ (s : State) rest, J s → J { s with pending := rest })
    (hwait : ∀ (s : State) now cursor, J s → J { s with lastFrameTime := now, cursor := cursor })
    (hcb : ∀ s, J s → J (toggleCheckerboard cfg clock s))
    (hrd : ∀ s, J s → J (toggleRedDot cfg clock s))
    (hrender : ∀ s now, J s → J (renderFrame now s)) :
    ∀ s, J s → J (iteration cfg clock spin s).2 := by
  intro s hs
  unfold iteration
  rcases hp : pollEvents s.cursor s.pending with ⟨b, rest⟩
  cases b
  · simp only
    rcases hw : busyWait clock (frameDuration cfg) s.lastFrameTime spin (clock s.cursor)
      (s.cursor + 1) with _ | ⟨now, cursor⟩
    · exact hpoll s rest hs
    · simp only
      have h1 := hwait _ now cursor (hpoll s rest hs)
      have h2 := hrender _ now (hrd _ (hcb _ h1))
      split
      · exact h2
      · exact h2
  · exact hpoll s rest hs

theorem runMode_inv (cfg : Config) (clock : Nat → ℚ) (J : State → Prop)
    (hpoll : ∀ (s : State) rest, J s → J { s with pending := rest })
    (hwait : ∀ (s : State) now cursor, J s → J { s with lastFrameTime := now, cursor := cursor })
    (hcb : ∀ s, J s → J (toggleCheckerboard cfg clock s))
    (hrd : ∀ s, J s → J (toggleRedDot cfg clock s))
    (hrender : ∀ s now, J s → J (renderFrame now s))
    (events : List (Nat × Event)) (hinit : J (initState clock events)) (fuel : Nat) :
    J (runMode cfg clock events fuel).2 :=
  runLoop_inv cfg clock fuel J
    (iteration_inv cfg clock fuel J hpoll hwait hcb hrd hrender) fuel _ hinit

/-! ## Each toggle block is a step of the meter -/

theorem Meter.run_append (m : Meter) (ts : List ℚ) (t : ℚ) :
    Meter.run m (ts ++ [t]) =
      (((Meter.run m ts).1.step t).1, (Meter.run m ts).2 ++ ((Meter.run m ts).1.step t).2.toList) := by
  induction ts generalizing m with
  | nil => simp [Meter.run]
  | cons a ts ih => simp [Meter.run, ih]

theorem linked_toggleCheckerboard (cfg : Config) (clock : Nat → ℚ) (l : Label) (start : ℚ)
    (s : State) (h : Linked l start s) : Linked l start (toggleCheckerboard cfg clock s) := by
  unfold toggleCheckerboard
  obtain ⟨h1, h2⟩ := h
  cases l
  · split
    · simp only [Linked, meterOf, checkerboardMeter] at h1 h2 ⊢
      split
      · rename_i hg
        simp only [toggleTimes, reports, List.filterMap_append] at h1 h2 ⊢
        simp only [List.filterMap_cons, List.filterMap_nil, if_true, List.append_nil]
        rw [Meter.run_append, ← h1, ← h2]
        simp [Meter.step, hg]
      · rename_i hg
        simp only [toggleTimes, reports, List.filterMap_append] at h1 h2 ⊢
        simp only [List.filterMap_cons, List.filterMap_nil, if_true, List.append_nil]
        rw [Meter.run_append, ← h1, ← h2]
        simp [Meter.step, hg]
    · exact ⟨h1, h2⟩
  · split
    · simp only [Linked, meterOf, redDotMeter] at h1 h2 ⊢
      split
      · simp only [toggleTimes, reports, List.filterMap_append] at h1 h2 ⊢
        simpa using ⟨h1, h2⟩
      · simp only [toggleTimes, reports, List.filterMap_append] at h1 h2 ⊢
        simpa using ⟨h1, h2⟩
    · exact ⟨h1, h2⟩

theorem linked_toggleRedDot (cfg : Config) (clock : Nat → ℚ) (l : Label) (start : ℚ)
    (s : State) (h : Linked l start s) : Linked l start (toggleRedDot cfg clock s) := by
  unfold toggleRedDot
  obtain ⟨h1, h2⟩ := h
  cases l
  · split
    · simp only [Linked, meterOf, checkerboardMeter] at h1 h2 ⊢
      split
      · simp only [toggleTimes, reports, List.filterMap_append] at h1 h2 ⊢
        simpa using ⟨h1, h2⟩
      · simp only [toggleTimes, reports, List.filterMap_append] at h1 h2 ⊢
        simpa using ⟨h1, h2⟩
    · exact ⟨h1, h2⟩
  · split
    · simp only [Linked, meterOf, redDotMeter] at h1 h2 ⊢
      split
      · rename_i hg
        simp only [toggleTimes, reports, List.filterMap_append] at h1 h2 ⊢
        simp only [List.filterMap_cons, List.filterMap_nil, if_true, List.append_nil]
        rw [Meter.run_append, ← h1, ← h2]
        simp [Meter.step, hg]
      · rename_i hg
        simp only [toggleTimes, reports, List.filterMap_append] at h1 h2 ⊢
        simp only [List.filterMap_cons, List.filterMap_nil, if_true, List.append_nil]
        rw [Meter.run_append, ← h1, ← h2]
        simp [Meter.step, hg]
    · exact ⟨h1, h2⟩

theorem linked_renderFrame (l : Label) (start : ℚ) (now : ℚ) (s : State)
    (h : Linked l start s) : Linked l start (renderFrame now s) := by
  obtain ⟨h1, h2⟩ := h
  cases l <;>
    simp only [Linked, meterOf, checkerboardMeter, redDotMeter, renderFrame, toggleTimes, reports,
      List.filterMap_append] at h1 h2 ⊢ <;>
    simpa using ⟨h1, h2⟩

/-- In every run, each channel's measurement variables and reports are those of
the meter run over the channel's toggle timestamps. -/
theorem runMode_linked (cfg : Config) (clock : Nat → ℚ) (events : List (Nat × Event))
    (fuel : Nat) (l : Label) : Linked l (clock 0) (runMode cfg clock events fuel).2 := by
  apply runMode_inv cfg clock (Linked l (clock 0))
  · intro s rest h; cases l <;> exact h
  · intro s now cursor h; cases l <;> exact h
  · intro s h; exact linked_toggleCheckerboard cfg clock l _ s h
  · intro s h; exact linked_toggleRedDot cfg clock l _ s h
  · intro s now h; exact linked_renderFrame l _ now s h
  · cases l <;> simp [Linked, initState, meterOf, checkerboardMeter, redDotMeter, toggleTimes,
      reports, Meter.run, Meter.init]

/-! ## The meter -/

theorem measuredFreq_eq (total : ℚ) (count : Int) (hc : 1 ≤ count) (ht : 0 < total) :
    measuredFreq total count = some ((count : ℚ) / total) := by
  have hc0 : (0 : ℚ) < (count : ℚ) := by exact_mod_cast (by omega : (0 : Int) < count)
  have h1 : (count : ℚ) ≠ 0 := ne_of_gt hc0
  have h2 : total / (count : ℚ) ≠ 0 := ne_of_gt (div_pos ht hc0)
  simp [measuredFreq, fdiv, h1, h2]

theorem Meter.step_consistent (m : Meter) (t : ℚ) (h : m.Consistent) :
    (m.step t).1.Consistent := by
  obtain ⟨h1, h2⟩ := h
  unfold Meter.step
  simp only
  split
  · simp [Meter.Consistent]
  · simp only [Meter.Consistent]
    constructor
    · rw [h1]; ring
    · omega

theorem Meter.step_report (m : Meter) (t : ℚ) (h : m.Consistent) (r : Report)
    (hr : (m.step t).2 = some r) :
    (r.timeSinceLastPrint = r.nowToggle - m.freqPrintTime ∧ 1 ≤ r.timeSinceLastPrint ∧
      1 ≤ r.toggleCount ∧ r.totalToggleDuration = r.timeSinceLastPrint ∧
      r.freq = some ((r.toggleCount : ℚ) / r.timeSinceLastPrint)) ∧
    (m.step t).1.freqPrintTime = r.nowToggle := by
  obtain ⟨h1, h2⟩ := h
  unfold Meter.step at hr ⊢
  simp only at hr ⊢
  split at hr
  · rename_i hg
    simp only [Option.some.injEq] at hr
    subst hr
    rw [if_pos hg]
    have htot : m.totalToggleDuration + (t - m.lastToggleTime) = t - m.freqPrintTime := by
      rw [h1]; ring
    have hc : 1 ≤ m.toggleCount + 1 := by omega
    refine ⟨⟨rfl, hg.1, hc, htot, ?_⟩, rfl⟩
    show measuredFreq (m.totalToggleDuration + (t - m.lastToggleTime)) (m.toggleCount + 1) = _
    rw [htot]
    exact measuredFreq_eq _ _ hc (by linarith [hg.1])
  · simp at hr

theorem Meter.step_none (m : Meter) (t : ℚ) (hr : (m.step t).2 = none) :
    (m.step t).1.freqPrintTime = m.freqPrintTime := by
  unfold Meter.step at hr ⊢
  simp only at hr ⊢
  split at hr
  · simp at hr
  · rename_i hg
    simp [if_neg hg]

theorem Meter.run_wellFormed (ts : List ℚ) :
    ∀ m : Meter, m.Consistent → WellFormedReports m.freqPrintTime (m.run ts).2 := by
  induction ts with
  | nil => intro m _; simp [Meter.run, WellFormedReports]
  | cons t ts ih =>
    intro m hm
    have h1 := ih _ (Meter.step_consistent m t hm)
    simp only [Meter.run]
    rcases hr : (m.step t).2 with _ | r
    · rw [Meter.step_none m t hr] at h1
      simpa using h1
    · obtain ⟨h2, h3⟩ := Meter.step_report m t hm r hr
      rw [h3] at h1
      simp only [Option.toList, List.singleton_append, WellFormedReports]
      exact ⟨h2, h1⟩

theorem Meter.init_consistent (start : ℚ) : (Meter.init start).Consistent := by
  simp [Meter.init, Meter.Consistent]

/-- The reports of every run are well formed, from the start time on. -/
theorem runMode_wellFormed (cfg : Config) (clock : Nat → ℚ) (events : List (Nat × Event))
    (fuel : Nat) (l : Label) :
    WellFormedReports (clock 0) (reports l (runMode cfg clock events fuel).2.out) := by
  have h := (runMode_linked cfg clock events fuel l).2
  rw [h]
  exact Meter.run_wellFormed _ _ (Meter.init_consistent _)

theorem WellFormedReports.mem {p : ℚ} {rs : List Report} (h : WellFormedReports p rs)
    {r : Report} (hr : r ∈ rs) :
    1 ≤ r.timeSinceLastPrint ∧ 1 ≤ r.toggleCount ∧
      r.totalToggleDuration = r.timeSinceLastPrint ∧
      r.freq = some ((r.toggleCount : ℚ) / r.timeSinceLastPrint) := by
  induction rs generalizing p with
  | nil => simp at hr
  | cons a rs ih =>
    obtain ⟨h1, h2⟩ := h
    rcases List.mem_cons.mp hr with rfl | hr
    · exact ⟨h1.2.1, h1.2.2.1, h1.2.2.2.1, h1.2.2.2.2⟩
    · exact ih h2 hr

theorem WellFormedReports.chain {p : ℚ} {rs : List Report} (h : WellFormedReports p rs) :
    List.Chain (fun a b : ℚ => a + 1 ≤ b) p (rs.map Report.nowToggle) := by
  induction rs generalizing p with
  | nil => simp
  | cons a rs ih =>
    obtain ⟨h1, h2⟩ := h
    simp only [List.map_cons, List.chain_cons]
    exact ⟨by linarith [h1.1, h1.2.1], ih h2⟩

theorem WellFormedReports.since {p : ℚ} {rs : List Report} (h : WellFormedReports p rs)
    (i : Nat) (hi : i < rs.length) :
    (rs.get ⟨i, hi⟩).timeSinceLastPrint =
      (rs.get ⟨i, hi⟩).nowToggle - (p :: rs.map Report.nowToggle).get
        ⟨i, by simp; omega⟩ := by
  induction rs generalizing p i with
  | nil => simp at hi
  | cons a rs ih =>
    obtain ⟨h1, h2⟩ := h
    cases i with
    | zero => simpa using h1.1
    | succ j =>
      have := ih h2 j (by simpa using hi)
      simpa using this

set_option maxRecDepth 4000 in
theorem demo_run :
    (runMode demoConfig secondsClock [] 5).2.out =
      [Output.toggle Label.checkerboard 2 2,
       Output.report Label.checkerboard ⟨2, 1, 2, 2, some (1 / 2)⟩,
       Output.toggle Label.redDot 3 3,
       Output.report Label.redDot ⟨3, 1, 3, 3, some (1 / 3)⟩,
       Output.present 1 true true,
       Output.toggle Label.checkerboard 5 5,
       Output.report Label.checkerboard ⟨5, 1, 3, 3, some (1 / 3)⟩,
       Output.toggle Label.redDot 6 6,
       Output.report Label.redDot ⟨6, 1, 3, 3, some (1 / 3)⟩,
       Output.present 4 false false] := by
  simp [runMode, runLoop, iteration, initState, pollEvents, busyWait, demoConfig, secondsClock,
    frameDuration, reciprocal, fdiv, beforeFrame, frameBody, toggleCheckerboard,
    toggleRedDot,
    renderFrame, measuredFreq]
  norm_num

/-- C7: in every run of `runMode` and for each channel, the toggle timestamps of
the channel's reports, preceded by the start time, are consecutively at least
one second apart (so the first report is at least one second after mode start),
and any two of them are at least one second apart. -/
theorem reports_one_second_apart (cfg : Config) (clock : Nat → ℚ)
    (events : List (Nat × Event)) (fuel : Nat) (l : Label) :
    List.Chain (fun a b : ℚ => a + 1 ≤ b) (clock 0)
        ((reports l (runMode cfg clock events fuel).2.out).map Report.nowToggle) ∧
      List.Pairwise (fun a b : ℚ => a + 1 ≤ b)
        (clock 0 :: (reports l (runMode cfg clock events fuel).2.out).map Report.nowToggle) := by
  have h := (runMode_wellFormed cfg clock events fuel l).chain
  refine ⟨h, ?_⟩
  haveI : IsTrans ℚ (fun a b : ℚ => a + 1 ≤ b) :=
    ⟨fun a b c hab hbc => by
      have h1 : a + 1 ≤ b := hab
      have h2 : b + 1 ≤ c := hbc
      show a + 1 ≤ c
      linarith⟩
  exact List.chain_iff_pairwise.mp h

/-- C10: in every run of `runMode`, the `i`-th report `r` of a channel divides by
a toggle count of at least one; its accumulated duration is the time from the
previous report of the channel (from mode start when `i = 0`) to its toggle and
is at least one second; the average period is positive and the printed value is
the count divided by that time. -/
theorem report_divisors_nonzero (cfg : Config) (clock : Nat → ℚ)
    (events : List (Nat × Event)) (fuel : Nat) (l : Label) (i : Nat) (r : Report)
    (hr : (reports l (runMode cfg clock events fuel).2.out)[i]? = some r) :
    1 ≤ r.toggleCount ∧
      (∃ p, (clock 0 :: (reports l (runMode cfg clock events fuel).2.out).map
          Report.nowToggle)[i]? = some p ∧ r.totalToggleDuration = r.nowToggle - p) ∧
      1 ≤ r.totalToggleDuration ∧
      0 < r.totalToggleDuration / (r.toggleCount : ℚ) ∧
      fdiv r.totalToggleDuration (r.toggleCount : ℚ)
        = some (r.totalToggleDuration / (r.toggleCount : ℚ)) ∧
      r.freq = some ((r.toggleCount : ℚ) / r.totalToggleDuration) := by
  have hw := runMode_wellFormed cfg clock events fuel l
  obtain ⟨hi, hget⟩ := List.getElem?_eq_some.mp hr
  have hmem : r ∈ reports l (runMode cfg clock events fuel).2.out := by
    rw [← hget]; exact List.getElem_mem _
  obtain ⟨h1, h2, h3, h4⟩ := hw.mem hmem
  have hs := hw.since i hi
  have hc0 : (0 : ℚ) < (r.toggleCount : ℚ) := by exact_mod_cast (by omega : (0 : Int) < r.toggleCount)
  refine ⟨h2, ⟨_, List.getElem?_eq_getElem (by simp; omega), ?_⟩, by rw [h3]; exact h1, ?_, ?_, ?_⟩
  · rw [h3]
    simp only [List.get_eq_getElem] at hs
    rw [← hget]
    exact hs
  · apply div_pos _ hc0
    rw [h3]; linarith
  · simp [fdiv, ne_of_gt hc0]
  · rw [h4, h3]

theorem demo_reports :
    reports Label.checkerboard (runMode demoConfig secondsClock [] 5).2.out =
      [⟨2, 1, 2, 2, some (1 / 2)⟩, ⟨5, 1, 3, 3, some (1 / 3)⟩] := by
  rw [demo_run]; simp [reports]

/-- Witness of `report_divisors_nonzero`: the second checkerboard report of the example run. -/
theorem report_divisors_nonzero_witness :
    (reports Label.checkerboard (runMode demoConfig secondsClock [] 5).2.out)[1]?
        = some ⟨5, 1, 3, 3, some (1 / 3)⟩ ∧
      (1 : Int) ≤ 1 ∧
      (∃ p, (secondsClock 0 :: (reports Label.checkerboard
          (runMode demoConfig secondsClock [] 5).2.out).map Report.nowToggle)[1]? = some p ∧
          (3 : ℚ) = 5 - p) ∧
      (1 : ℚ) ≤ 3 ∧ (0 : ℚ) < 3 / ((1 : Int) : ℚ) ∧
      fdiv 3 ((1 : Int) : ℚ) = some (3 / ((1 : Int) : ℚ)) ∧
      some (1 / 3 : ℚ) = some ((((1 : Int) : ℚ)) / 3) :=
  ⟨by rw [demo_reports]; rfl,
    report_divisors_nonzero demoConfig secondsClock [] 5 Label.checkerboard 1
      ⟨5, 1, 3, 3, some (1 / 3)⟩ (by rw [demo_reports]; rfl)⟩

/-- C1: for each flashing channel and every state, if the channel's toggle block
emits a frequency report, then the toggle count the report divides by is the
incremented count and is at least 1, and after the block the channel's toggle
count is 0 and its accumulated toggle duration is 0. -/
theorem report_resets_meter (l : Label) (cfg : Config) (clock : Nat → ℚ) (s : State)
    (r : Report)
    (h : Output.report l r ∈ (toggleBlock l cfg clock s).out.drop s.out.length) :
    1 ≤ r.toggleCount ∧ r.toggleCount = (meterOf l s).toggleCount + 1 ∧
      (meterOf l (toggleBlock l cfg clock s)).toggleCount = 0 ∧
      (meterOf l (toggleBlock l cfg clock s)).totalToggleDuration = 0 := by
  cases l
  · simp only [toggleBlock, toggleCheckerboard, meterOf, checkerboardMeter] at h ⊢
    split at h
    · split at h
      · rename_i hf hg
        simp only [List.append_assoc, List.drop_left, List.singleton_append, List.mem_cons,
          Output.report.injEq, true_and, List.mem_singleton, reduceCtorEq, false_or,
          List.not_mem_nil, or_false] at h
        subst h
        simp only [if_pos hf, if_pos hg]
        exact ⟨by have := hg.2; omega, by simp⟩
      · simp at h
    · simp at h
  · simp only [toggleBlock, toggleRedDot, meterOf, redDotMeter] at h ⊢
    split at h
    · split at h
      · rename_i hf hg
        simp only [List.append_assoc, List.drop_left, List.singleton_append, List.mem_cons,
          Output.report.injEq, true_and, List.mem_singleton, reduceCtorEq, false_or,
          List.not_mem_nil, or_false] at h
        subst h
        simp only [if_pos hf, if_pos hg]
        exact ⟨by have := hg.2; omega, by simp⟩
      · simp at h
    · simp at h

/-- Witness of `report_resets_meter`: the first checkerboard toggle on a clock
that reads one second, which reports. -/
theorem report_resets_meter_witness :
    Output.report Label.checkerboard ⟨1, 1, 1, 1, some 1⟩ ∈
        (toggleBlock Label.checkerboard demoConfig secondsClock
          (initState secondsClock [])).out.drop (initState secondsClock []).out.length ∧
      ((1 : Int) ≤ 1 ∧
        (1 : Int) = (meterOf Label.checkerboard (initState secondsClock [])).toggleCount + 1 ∧
        (meterOf Label.checkerboard (toggleBlock Label.checkerboard demoConfig secondsClock
          (initState secondsClock []))).toggleCount = 0 ∧
        (meterOf Label.checkerboard (toggleBlock Label.checkerboard demoConfig secondsClock
          (initState secondsClock []))).totalToggleDuration = 0) :=
  ⟨by simp [toggleBlock, toggleCheckerboard, demoConfig, secondsClock, initState, measuredFreq,
      fdiv],
    report_resets_meter Label.checkerboard demoConfig secondsClock (initState secondsClock [])
      ⟨1, 1, 1, 1, some 1⟩
      (by simp [toggleBlock, toggleCheckerboard, demoConfig, secondsClock, initState,
        measuredFreq, fdiv])⟩

/-! ## What the blocks of an iteration do to the state -/

theorem toggleCheckerboard_frames (cfg : Config) (clock : Nat → ℚ) (s : State) :
    frames (toggleCheckerboard cfg clock s).out = frames s.out := by
  unfold toggleCheckerboard
  split
  · dsimp only
    split <;> simp [frames, List.filterMap_append]
  · rfl

theorem toggleRedDot_frames (cfg : Config) (clock : Nat → ℚ) (s : State) :
    frames (toggleRedDot cfg clock s).out = frames s.out := by
  unfold toggleRedDot
  split
  · dsimp only
    split <;> simp [frames, List.filterMap_append]
  · rfl

theorem toggleCheckerboard_flags (cfg : Config) (clock : Nat → ℚ) (s : State) :
    (toggleCheckerboard cfg clock s).checkerboardState
        = (if cfg.flashCheckerboard then !s.checkerboardState else s.checkerboardState) ∧
      (toggleCheckerboard cfg clock s).redDotVisible = s.redDotVisible ∧
      (toggleCheckerboard cfg clock s).startTime = s.startTime ∧
      (toggleCheckerboard cfg clock s).pending = s.pending ∧
      (toggleCheckerboard cfg clock s).lastFrameTime = s.lastFrameTime ∧
      (toggleCheckerboard cfg clock s).cursor
        = s.cursor + (if cfg.flashCheckerboard then 1 else 0) := by
  unfold toggleCheckerboard
  split
  · rename_i h
    dsimp only
    split <;> simp [h]
  · rename_i h
    simp [h]

theorem toggleRedDot_flags (cfg : Config) (clock : Nat → ℚ) (s : State) :
    (toggleRedDot cfg clock s).checkerboardState = s.checkerboardState ∧
      (toggleRedDot cfg clock s).redDotVisible
        = (if cfg.flashRedDot then !s.redDotVisible else true) ∧
      (toggleRedDot cfg clock s).startTime = s.startTime ∧
      (toggleRedDot cfg clock s).pending = s.pending ∧
      (toggleRedDot cfg clock s).lastFrameTime = s.lastFrameTime ∧
      (toggleRedDot cfg clock s).cursor = s.cursor + (if cfg.flashRedDot then 1 else 0) := by
  unfold toggleRedDot
  split
  · rename_i h
    dsimp only
    split <;> simp [h]
  · rename_i h
    simp [h]

theorem toggleCheckerboard_toggleTimes (cfg : Config) (clock : Nat → ℚ) (s : State)
    (l : Label) :
    toggleTimes l (toggleCheckerboard cfg clock s).out =
      toggleTimes l s.out ++
        (if cfg.flashCheckerboard = true ∧ l = Label.checkerboard then [clock s.cursor]
          else []) := by
  unfold toggleCheckerboard
  split
  · rename_i h
    dsimp only
    split <;> cases l <;> simp [toggleTimes, List.filterMap_append, h]
  · rename_i h
    simp [h]

theorem toggleRedDot_toggleTimes (cfg : Config) (clock : Nat → ℚ) (s : State) (l : Label) :
    toggleTimes l (toggleRedDot cfg clock s).out =
      toggleTimes l s.out ++
        (if cfg.flashRedDot = true ∧ l = Label.redDot then [clock s.cursor] else []) := by
  unfold toggleRedDot
  split
  · rename_i h
    dsimp only
    split <;> cases l <;> simp [toggleTimes, List.filterMap_append, h]
  · rename_i h
    simp [h]

theorem frameBody_spec (cfg : Config) (clock : Nat → ℚ) (now : ℚ) (s : State) :
    frames (frameBody cfg clock now s).out = frames s.out ++
        [(now, (frameBody cfg clock now s).checkerboardState,
          (frameBody cfg clock now s).redDotVisible)] ∧
      (frameBody cfg clock now s).checkerboardState
        = (if cfg.flashCheckerboard then !s.checkerboardState else s.checkerboardState) ∧
      (frameBody cfg clock now s).redDotVisible
        = (if cfg.flashRedDot then !s.redDotVisible else true) ∧
      ∀ l, (toggleTimes l (frameBody cfg clock now s).out).length
        = (toggleTimes l s.out).length + (if flashes cfg l then 1 else 0) := by
  have hc := toggleCheckerboard_flags cfg clock s
  have hr := toggleRedDot_flags cfg clock (toggleCheckerboard cfg clock s)
  have h3 := toggleRedDot_frames cfg clock (toggleCheckerboard cfg clock s)
  have h4 := toggleCheckerboard_frames cfg clock s
  refine ⟨?_, ?_, ?_, ?_⟩
  · simp only [frameBody, renderFrame, frames, List.filterMap_append, List.filterMap_cons,
      List.filterMap_nil]
    simp only [frames] at h3 h4
    rw [h3, h4]
  · simp only [frameBody, renderFrame]
    rw [hr.1, hc.1]
  · simp only [frameBody, renderFrame]
    rw [hr.2.1, hc.2.1]
  · intro l
    simp only [frameBody, renderFrame, toggleTimes, List.filterMap_append, List.filterMap_cons,
      List.filterMap_nil, List.append_nil]
    have h5 := toggleRedDot_toggleTimes cfg clock (toggleCheckerboard cfg clock s) l
    have h6 := toggleCheckerboard_toggleTimes cfg clock s l
    simp only [toggleTimes] at h5 h6
    rw [h5, h6]
    cases l <;> cases hA : cfg.flashCheckerboard <;> cases hB : cfg.flashRedDot <;>
      simp [flashes, hA, hB]

/-- An iteration either ends the run before the frame and leaves the flags and
the record as they are, or toggles the flashing channels and presents one frame
with the new flags. -/
theorem iteration_cases (cfg : Config) (clock : Nat → ℚ) (spin : Nat) (s : State) :
    (((iteration cfg clock spin s).1 = Status.cancelled ∨
          (iteration cfg clock spin s).1 = Status.outOfFuel) ∧
        (iteration cfg clock spin s).2.out = s.out ∧
        (iteration cfg clock spin s).2.checkerboardState = s.checkerboardState ∧
        (iteration cfg clock spin s).2.redDotVisible = s.redDotVisible) ∨
      (((iteration cfg clock spin s).1 = Status.expired ∨
          (iteration cfg clock spin s).1 = Status.running) ∧
        (∃ now, frames (iteration cfg clock spin s).2.out = frames s.out ++
          [(now, (iteration cfg clock spin s).2.checkerboardState,
            (iteration cfg clock spin s).2.redDotVisible)]) ∧
        (iteration cfg clock spin s).2.checkerboardState
          = (if cfg.flashCheckerboard then !s.checkerboardState else s.checkerboardState) ∧
        (iteration cfg clock spin s).2.redDotVisible
          = (if cfg.flashRedDot then !s.redDotVisible else true) ∧
        ∀ l, (toggleTimes l (iteration cfg clock spin s).2.out).length
          = (toggleTimes l s.out).length + (if flashes cfg l then 1 else 0)) := by
  unfold iteration
  rcases hp : pollEvents s.cursor s.pending with ⟨b, rest⟩
  cases b
  · simp only
    rcases hw : busyWait clock (frameDuration cfg) s.lastFrameTime spin (clock s.cursor)
      (s.cursor + 1) with _ | ⟨now, cursor⟩
    · left; simp
    · right
      simp only
      obtain ⟨k1, k2, k3, k4⟩ := frameBody_spec cfg clock now
        { s with pending := rest, lastFrameTime := now, cursor := cursor }
      split
      · exact ⟨Or.inl rfl, ⟨now, k1⟩, k2, k3, k4⟩
      · exact ⟨Or.inr rfl, ⟨now, k1⟩, k2, k3, k4⟩
  · left; simp

/-! ## The flags of the presented frames -/

theorem demo_frames :
    frames (runMode demoConfig secondsClock [] 5).2.out = [(1, true, true), (4, false, false)] := by
  rw [demo_run]; simp [frames]

set_option maxRecDepth 4000 in
theorem boardOnly_frames :
    frames (runMode boardOnlyConfig secondsClock [] 5).2.out
      = [(1, true, true), (3, false, true)] := by
  simp [runMode, runLoop, iteration, initState, pollEvents, busyWait, boardOnlyConfig,
    secondsClock, frameDuration, reciprocal, fdiv, beforeFrame, frameBody, toggleCheckerboard,
    toggleRedDot,
    renderFrame, measuredFreq, frames]
  norm_num [frames]
  rfl

set_option maxRecDepth 4000 in
theorem dotOnly_frames :
    frames (runMode dotOnlyConfig secondsClock [] 5).2.out
      = [(1, false, true), (3, false, false)] := by
  simp [runMode, runLoop, iteration, initState, pollEvents, busyWait, dotOnlyConfig,
    secondsClock, frameDuration, reciprocal, fdiv, beforeFrame, frameBody, toggleCheckerboard,
    toggleRedDot,
    renderFrame, measuredFreq, frames]
  norm_num [frames]
  rfl

theorem drawDot_centre (x y : Int) : (x, y) ∈ drawDot x y 30 true := by
  simp only [drawDot, Bool.not_true, Bool.false_eq_true, if_false, List.mem_flatMap,
    List.mem_filterMap, List.mem_range]
  refine ⟨30, by decide, 30, by decide, ?_⟩
  simp

/-- The frames of a run with a static red dot all have the red dot visible. -/
theorem runLoop_redDot_static (cfg : Config) (clock : Nat → ℚ) (spin : Nat)
    (h : cfg.flashRedDot = false) (fuel : Nat) (s : State)
    (hs : ∀ fr ∈ frames s.out, fr.2.2 = true) :
    ∀ fr ∈ frames (runLoop cfg clock spin fuel s).2.out, fr.2.2 = true := by
  apply runLoop_inv cfg clock spin (fun s => ∀ fr ∈ frames s.out, fr.2.2 = true) _ fuel s hs
  intro s hs
  rcases iteration_cases cfg clock spin s with ⟨_, h1, _⟩ | ⟨_, ⟨now, h1⟩, _, h3, _⟩
  · rw [h1]; exact hs
  · rw [h1]
    intro fr hfr
    rcases List.mem_append.mp hfr with h4 | h4
    · exact hs fr h4
    · simp only [List.mem_singleton] at h4
      subst h4
      simpa [h] using h3

/-- The frames of a run with a static checkerboard all have the colours not
inverted, as long as the state starts so. -/
theorem runLoop_checkerboard_static (cfg : Config) (clock : Nat → ℚ) (spin : Nat)
    (h : cfg.flashCheckerboard = false) (fuel : Nat) (s : State)
    (hs : s.checkerboardState = false ∧ ∀ fr ∈ frames s.out, fr.2.1 = false) :
    (runLoop cfg clock spin fuel s).2.checkerboardState = false ∧
      ∀ fr ∈ frames (runLoop cfg clock spin fuel s).2.out, fr.2.1 = false := by
  apply runLoop_inv cfg clock spin
    (fun s => s.checkerboardState = false ∧ ∀ fr ∈ frames s.out, fr.2.1 = false) _ fuel s hs
  intro s hs
  rcases iteration_cases cfg clock spin s with ⟨_, h1, h2, _⟩ | ⟨_, ⟨now, h1⟩, h2, _, _⟩
  · rw [h1, h2]; exact hs
  · have h5 : (iteration cfg clock spin s).2.checkerboardState = false := by
      rw [h2]; simpa [h] using hs.1
    refine ⟨h5, ?_⟩
    rw [h1]
    intro fr hfr
    rcases List.mem_append.mp hfr with h4 | h4
    · exact hs.2 fr h4
    · simp only [List.mem_singleton] at h4
      subst h4
      exact h5

/-- C3: in `runMode` called with `flashRedDot = false`, on every clock, every
event queue, every frequency and duration, each presented frame hands
`visible = true` to the red `drawDot`, which draws the dot (its centre is among
the points drawn). -/
theorem static_red_dot_always_visible (cfg : Config) (clock : Nat → ℚ)
    (events : List (Nat × Event)) (fuel : Nat) (h : cfg.flashRedDot = false)
    (fr : ℚ × Bool × Bool) (hfr : fr ∈ frames (runMode cfg clock events fuel).2.out) :
    fr.2.2 = true ∧
      (cfg.windowWidth.tdiv 2 + 300, cfg.windowHeight.tdiv 2 - 200) ∈
        drawDot (cfg.windowWidth.tdiv 2 + 300) (cfg.windowHeight.tdiv 2 - 200) 30 fr.2.2 := by
  have h1 : fr.2.2 = true :=
    runLoop_redDot_static cfg clock fuel h fuel (initState clock events)
      (by simp [initState, frames]) fr hfr
  rw [h1]
  exact ⟨rfl, drawDot_centre _ _⟩

/-- Witness of `static_red_dot_always_visible`: the second frame of the example
run in which only the checkerboard flashes. -/
theorem static_red_dot_always_visible_witness :
    boardOnlyConfig.flashRedDot = false ∧
      ((3 : ℚ), false, true) ∈ frames (runMode boardOnlyConfig secondsClock [] 5).2.out ∧
      (((3 : ℚ), false, true).2.2 = true ∧
        (boardOnlyConfig.windowWidth.tdiv 2 + 300, boardOnlyConfig.windowHeight.tdiv 2 - 200) ∈
          drawDot (boardOnlyConfig.windowWidth.tdiv 2 + 300)
            (boardOnlyConfig.windowHeight.tdiv 2 - 200) 30 ((3 : ℚ), false, true).2.2) :=
  ⟨rfl, by rw [boardOnly_frames]; simp,
    static_red_dot_always_visible boardOnlyConfig secondsClock [] 5 rfl (3, false, true)
      (by rw [boardOnly_frames]; simp)⟩

/-- C8, refuted: in the example run with `flashCheckerboard = false` the first
presented frame hands `invertColors = false` to `drawCheckerboard`, so the flag
is not true on every frame. -/
theorem static_checkerboard_not_forced_true :
    dotOnlyConfig.flashCheckerboard = false ∧
      ¬ (∀ fr ∈ frames (runMode dotOnlyConfig secondsClock [] 5).2.out, fr.2.1 = true) := by
  refine ⟨rfl, ?_⟩
  rw [dotOnly_frames]
  intro h
  have := h (1, false, true) (by simp)
  simp at this

/-- C8, amended: in `runMode` called with `flashCheckerboard = false`, each
presented frame hands `invertColors = false` to `drawCheckerboard`: the
checkerboard state keeps its initial value and is never toggled. -/
theorem static_checkerboard_never_inverted (cfg : Config) (clock : Nat → ℚ)
    (events : List (Nat × Event)) (fuel : Nat) (h : cfg.flashCheckerboard = false)
    (fr : ℚ × Bool × Bool) (hfr : fr ∈ frames (runMode cfg clock events fuel).2.out) :
    fr.2.1 = false ∧ (runMode cfg clock events fuel).2.checkerboardState = false ∧
      toggleTimes Label.checkerboard (runMode cfg clock events fuel).2.out = [] := by
  have h1 := runLoop_checkerboard_static cfg clock fuel h fuel (initState clock events)
    (by simp [initState, frames])
  refine ⟨h1.2 fr hfr, h1.1, ?_⟩
  apply runMode_inv cfg clock (fun s => toggleTimes Label.checkerboard s.out = [])
  · intro s rest hs; exact hs
  · intro s now cursor hs; exact hs
  · intro s hs
    rw [toggleCheckerboard_toggleTimes, hs]
    simp [h]
  · intro s hs
    rw [toggleRedDot_toggleTimes, hs]
    simp
  · intro s now hs
    simp only [toggleTimes] at hs
    simp [renderFrame, toggleTimes, List.filterMap_append, hs]
  · simp [initState, toggleTimes]

/-- Witness of `static_checkerboard_never_inverted`: the first frame of the
example run in which only the red dot flashes. -/
theorem static_checkerboard_never_inverted_witness :
    dotOnlyConfig.flashCheckerboard = false ∧
      ((1 : ℚ), false, true) ∈ frames (runMode dotOnlyConfig secondsClock [] 5).2.out ∧
      (((1 : ℚ), false, true).2.1 = false ∧
        (runMode dotOnlyConfig secondsClock [] 5).2.checkerboardState = false ∧
        toggleTimes Label.checkerboard (runMode dotOnlyConfig secondsClock [] 5).2.out = []) :=
  ⟨rfl, by rw [dotOnly_frames]; simp,
    static_checkerboard_never_inverted dotOnlyConfig secondsClock [] 5 rfl (1, false, true)
      (by rw [dotOnly_frames]; simp)⟩

theorem not_decide_odd (n : Nat) : (!decide (n % 2 = 1)) = decide ((n + 1) % 2 = 1) := by
  rcases Nat.mod_two_eq_zero_or_one n with h | h <;> simp [h, Nat.add_mod]

/-- With both channels flashing, both flags follow the parity of the number of
presented frames, and each channel has been toggled once per frame. -/
theorem runLoop_lockstep (cfg : Config) (clock : Nat → ℚ) (spin : Nat)
    (hcb : cfg.flashCheckerboard = true) (hrd : cfg.flashRedDot = true) (fuel : Nat) (s : State)
    (hs : s.checkerboardState = decide ((frames s.out).length % 2 = 1) ∧
      s.redDotVisible = decide ((frames s.out).length % 2 = 1) ∧
      (∀ n fr, (frames s.out)[n]? = some fr →
        fr.2.1 = decide ((n + 1) % 2 = 1) ∧ fr.2.2 = decide ((n + 1) % 2 = 1)) ∧
      ∀ l, (toggleTimes l s.out).length = (frames s.out).length) :
    (∀ n fr, (frames (runLoop cfg clock spin fuel s).2.out)[n]? = some fr →
        fr.2.1 = decide ((n + 1) % 2 = 1) ∧ fr.2.2 = decide ((n + 1) % 2 = 1)) ∧
      ∀ l, (toggleTimes l (runLoop cfg clock spin fuel s).2.out).length
        = (frames (runLoop cfg clock spin fuel s).2.out).length := by
  refine (runLoop_inv cfg clock spin
    (fun s => s.checkerboardState = decide ((frames s.out).length % 2 = 1) ∧
      s.redDotVisible = decide ((frames s.out).length % 2 = 1) ∧
      (∀ n fr, (frames s.out)[n]? = some fr →
        fr.2.1 = decide ((n + 1) % 2 = 1) ∧ fr.2.2 = decide ((n + 1) % 2 = 1)) ∧
      ∀ l, (toggleTimes l s.out).length = (frames s.out).length) ?_ fuel s hs).2.2
  intro s ⟨h1, h2, h3, h4⟩
  rcases iteration_cases cfg clock spin s with ⟨_, k1, k2, k3⟩ | ⟨_, ⟨now, k1⟩, k2, k3, k4⟩
  · rw [k1, k2, k3]; exact ⟨h1, h2, h3, h4⟩
  · have e1 : (iteration cfg clock spin s).2.checkerboardState
        = decide (((frames s.out).length + 1) % 2 = 1) := by
      rw [k2, if_pos hcb, h1, not_decide_odd]
    have e2 : (iteration cfg clock spin s).2.redDotVisible
        = decide (((frames s.out).length + 1) % 2 = 1) := by
      rw [k3, if_pos hrd, h2, not_decide_odd]
    have hlen : (frames (iteration cfg clock spin s).2.out).length = (frames s.out).length + 1 := by
      rw [k1]; simp
    refine ⟨by rw [hlen]; exact e1, by rw [hlen]; exact e2, ?_, ?_⟩
    · intro n fr hfr
      rw [k1] at hfr
      by_cases hn : n < (frames s.out).length
      · rw [List.getElem?_append_left hn] at hfr
        exact h3 n fr hfr
      · have hn1 : (frames s.out).length ≤ n := by omega
        rw [List.getElem?_append_right hn1] at hfr
        have hn2 : n - (frames s.out).length = 0 := by
          by_contra hne
          have : 1 ≤ n - (frames s.out).length := by omega
          rw [List.getElem?_eq_none (by simpa using this)] at hfr
          simp at hfr
        rw [hn2] at hfr
        simp only [List.getElem?_cons_zero, Option.some.injEq] at hfr
        have hn3 : n = (frames s.out).length := by omega
        subst hfr
        rw [hn3]
        exact ⟨e1, e2⟩
    · intro l
      rw [k4 l, hlen, h4 l]
      cases l <;> simp [flashes, hcb, hrd]

/-- C9: in `runMode` with both channels flashing, on every clock and event
queue, the frame at index `n` (the `n + 1`-th presented frame) has the
checkerboard flag equal to the red dot flag, both true exactly when `n + 1` is
odd; and each channel has been toggled exactly once per presented frame. -/
theorem flashing_channels_lockstep (cfg : Config) (clock : Nat → ℚ)
    (events : List (Nat × Event)) (fuel : Nat) (hcb : cfg.flashCheckerboard = true)
    (hrd : cfg.flashRedDot = true) (n : Nat) (fr : ℚ × Bool × Bool)
    (hfr : (frames (runMode cfg clock events fuel).2.out)[n]? = some fr) :
    fr.2.1 = fr.2.2 ∧ (fr.2.1 = true ↔ (n + 1) % 2 = 1) ∧
      ∀ l, (toggleTimes l (runMode cfg clock events fuel).2.out).length
        = (frames (runMode cfg clock events fuel).2.out).length := by
  have h := runLoop_lockstep cfg clock fuel hcb hrd fuel (initState clock events)
    (by simp [initState, frames, toggleTimes])
  obtain ⟨h1, h2⟩ := h.1 n fr hfr
  refine ⟨by rw [h1, h2], ?_, h.2⟩
  rw [h1]; simp

/-- Witness of `flashing_channels_lockstep`: the second frame of the example run. -/
theorem flashing_channels_lockstep_witness :
    demoConfig.flashCheckerboard = true ∧ demoConfig.flashRedDot = true ∧
      (frames (runMode demoConfig secondsClock [] 5).2.out)[1]? = some (4, false, false) ∧
      (((4 : ℚ), false, false).2.1 = ((4 : ℚ), false, false).2.2 ∧
        (((4 : ℚ), false, false).2.1 = true ↔ (1 + 1) % 2 = 1) ∧
        ∀ l, (toggleTimes l (runMode demoConfig secondsClock [] 5).2.out).length
          = (frames (runMode demoConfig secondsClock [] 5).2.out).length) :=
  ⟨rfl, rfl, by rw [demo_frames]; rfl,
    flashing_channels_lockstep demoConfig secondsClock [] 5 rfl rfl 1 (4, false, false)
      (by rw [demo_frames]; rfl)⟩

/-! ## Toggles at the exact period -/

theorem Meter.run_exact (f start : ℚ) (hf : 0 < f) (ts : List ℚ) :
    ∀ (m : Meter) (n : Nat), 0 ≤ m.toggleCount →
      m.totalToggleDuration = (m.toggleCount : ℚ) / f →
      m.lastToggleTime = start + (n : ℚ) / f →
      (∀ k (hk : k < ts.length), ts[k] = start + ((n : ℚ) + (k : ℚ) + 1) / f) →
      ∀ r ∈ (m.run ts).2, r.freq = some f := by
  induction ts with
  | nil => intro m n _ _ _ _ r hr; simp [Meter.run] at hr
  | cons t ts ih =>
    intro m n hc htot hlast hts r hr
    have ht : t = start + ((n : ℚ) + 1) / f := by
      have := hts 0 (by simp)
      simpa using this
    have htot1 : m.totalToggleDuration + (t - m.lastToggleTime)
        = ((m.toggleCount + 1 : Int) : ℚ) / f := by
      rw [htot, hlast, ht]; push_cast; field_simp
    have hc1 : (1 : Int) ≤ m.toggleCount + 1 := by omega
    have hpos : (0 : ℚ) < ((m.toggleCount + 1 : Int) : ℚ) := by exact_mod_cast hc1
    have hts1 : ∀ k (hk : k < ts.length),
        ts[k] = start + (((n + 1 : Nat) : ℚ) + (k : ℚ) + 1) / f := by
      intro k hk
      have := hts (k + 1) (by simpa using hk)
      simp only [List.getElem_cons_succ] at this
      rw [this]; push_cast; ring
    have hlast1 : t = start + ((n + 1 : Nat) : ℚ) / f := by rw [ht]; push_cast; ring
    simp only [Meter.run, List.mem_append] at hr
    rcases hr with hr | hr
    · unfold Meter.step at hr
      simp only at hr
      split at hr
      · simp only [Option.toList, List.mem_singleton] at hr
        subst hr
        show measuredFreq _ _ = some f
        rw [htot1, measuredFreq_eq _ _ hc1 (div_pos hpos hf)]
        congr 1
        field_simp
      · simp at hr
    · refine ih (m.step t).1 (n + 1) ?_ ?_ ?_ hts1 r hr
      · unfold Meter.step; simp only; split <;> simp only <;> omega
      · unfold Meter.step; simp only
        split
        · simp
        · simp only; exact htot1
      · unfold Meter.step; simp only
        split <;> exact hlast1

/-- C2: over exact arithmetic, for every `frequencyHz > 0` and every run of
`runMode`: if the toggle at index `k` of a channel (its `k + 1`-th toggle) is
stamped exactly `(k + 1) / frequencyHz` after mode start, for every toggle of the
run, then every frequency report of the channel has the value `frequencyHz`. -/
theorem exact_period_reports_target (cfg : Config) (clock : Nat → ℚ)
    (events : List (Nat × Event)) (fuel : Nat) (l : Label) (hf : 0 < cfg.frequencyHz)
    (htimes : ∀ k (hk : k < (toggleTimes l (runMode cfg clock events fuel).2.out).length),
      (toggleTimes l (runMode cfg clock events fuel).2.out)[k]
        = clock 0 + ((k : ℚ) + 1) / cfg.frequencyHz)
    (r : Report) (hr : r ∈ reports l (runMode cfg clock events fuel).2.out) :
    r.freq = some cfg.frequencyHz := by
  rw [(runMode_linked cfg clock events fuel l).2] at hr
  refine Meter.run_exact cfg.frequencyHz (clock 0) hf _ (Meter.init (clock 0)) 0 ?_ ?_ ?_ ?_ r hr
  · simp [Meter.init]
  · simp [Meter.init]
  · simp [Meter.init]
  · intro k hk
    rw [htimes k hk]; simp

set_option maxRecDepth 4000 in
theorem paced_demo_run :
    (runMode demoConfig (pacedClock 3 1) [] 3).2.out =
      [Output.toggle Label.checkerboard 2 1,
       Output.report Label.checkerboard ⟨1, 1, 1, 1, some 1⟩,
       Output.toggle Label.redDot 3 1,
       Output.report Label.redDot ⟨1, 1, 1, 1, some 1⟩,
       Output.present 1 true true,
       Output.toggle Label.checkerboard 5 2,
       Output.report Label.checkerboard ⟨2, 1, 1, 1, some 1⟩,
       Output.toggle Label.redDot 6 2,
       Output.report Label.redDot ⟨2, 1, 1, 1, some 1⟩,
       Output.present 2 false false] := by
  simp [runMode, runLoop, iteration, initState, pollEvents, busyWait, demoConfig, pacedClock,
    frameDuration, reciprocal, fdiv, beforeFrame, frameBody, toggleCheckerboard,
    toggleRedDot,
    renderFrame, measuredFreq]
  norm_num

/-- Witness of `exact_period_reports_target`: the example mode on the clock that
advances by one period per iteration; the second checkerboard report reads 1 Hz. -/
theorem exact_period_reports_target_witness :
    (0 : ℚ) < demoConfig.frequencyHz ∧
      (∀ k (hk : k < (toggleTimes Label.checkerboard
          (runMode demoConfig (pacedClock 3 1) [] 3).2.out).length),
        (toggleTimes Label.checkerboard (runMode demoConfig (pacedClock 3 1) [] 3).2.out)[k]
          = pacedClock 3 1 0 + ((k : ℚ) + 1) / demoConfig.frequencyHz) ∧
      (⟨2, 1, 1, 1, some 1⟩ : Report) ∈
        reports Label.checkerboard (runMode demoConfig (pacedClock 3 1) [] 3).2.out ∧
      (⟨2, 1, 1, 1, some 1⟩ : Report).freq = some demoConfig.frequencyHz := by
  have h1 : (0 : ℚ) < demoConfig.frequencyHz := by norm_num [demoConfig]
  have h2 : ∀ k (hk : k < (toggleTimes Label.checkerboard
      (runMode demoConfig (pacedClock 3 1) [] 3).2.out).length),
      (toggleTimes Label.checkerboard (runMode demoConfig (pacedClock 3 1) [] 3).2.out)[k]
        = pacedClock 3 1 0 + ((k : ℚ) + 1) / demoConfig.frequencyHz := by
    rw [paced_demo_run]
    intro k hk
    simp only [toggleTimes, List.filterMap_cons, if_true, List.filterMap_nil, reduceCtorEq,
      if_false, List.length_cons, List.length_nil] at hk ⊢
    have hk2 : k = 0 ∨ k = 1 := by omega
    rcases hk2 with rfl | rfl <;> norm_num [pacedClock, demoConfig]
  have h3 : (⟨2, 1, 1, 1, some 1⟩ : Report) ∈
      reports Label.checkerboard (runMode demoConfig (pacedClock 3 1) [] 3).2.out := by
    rw [paced_demo_run]; simp [reports]
  exact ⟨h1, h2, h3,
    exact_period_reports_target demoConfig (pacedClock 3 1) [] 3 Label.checkerboard h1 h2 _ h3⟩

/-! ## Cancellation -/

theorem pollEvents_cancel (cursor : Nat) (pre post : List (Nat × Event)) (a : Nat) (e : Event)
    (hpre : ∀ x ∈ pre, x.1 ≤ cursor ∧ isCancel x.2 = false) (ha : a ≤ cursor)
    (he : isCancel e = true) :
    pollEvents cursor (pre ++ (a, e) :: post) = (true, post) := by
  induction pre with
  | nil => simp [pollEvents, Nat.not_lt.mpr ha, he]
  | cons x pre ih =>
    obtain ⟨b, ev⟩ := x
    have hx := hpre (b, ev) (by simp)
    have ih1 := ih (fun y hy => hpre y (by simp [hy]))
    simp only [List.cons_append, pollEvents, Nat.not_lt.mpr hx.1, if_false, hx.2,
      Bool.false_eq_true]
    exact ih1

set_option maxRecDepth 4000 in
/-- C5, refuted: a quit signal that arrives after the poll of the first iteration
(once two clock reads are made, that is during the frame wait) does not stop that
iteration: both channels are toggled by later clock reads (indices 2 and 3) and
both report, and `runMode` returns only at the poll of the second iteration. -/
theorem cancel_after_poll_still_toggles :
    (runMode demoConfig secondsClock [(2, Event.quit)] 5).1 = Status.cancelled ∧
      toggleReads Label.checkerboard
        (runMode demoConfig secondsClock [(2, Event.quit)] 5).2.out = [2] ∧
      toggleReads Label.redDot
        (runMode demoConfig secondsClock [(2, Event.quit)] 5).2.out = [3] ∧
      (reports Label.checkerboard
        (runMode demoConfig secondsClock [(2, Event.quit)] 5).2.out).length = 1 ∧
      ¬ (∀ i ∈ toggleReads Label.checkerboard
        (runMode demoConfig secondsClock [(2, Event.quit)] 5).2.out, i < 2) := by
  have h : runMode demoConfig secondsClock [(2, Event.quit)] 5 =
      (Status.cancelled,
        { startTime := 0, lastFrameTime := 1, checkerboardState := true, redDotVisible := true,
          checkerboardToggleCount := 0, checkerboardTotalToggleDuration := 0,
          checkerboardLastToggleTime := 2, checkerboardFreqPrintTime := 2,
          redDotToggleCount := 0, redDotTotalToggleDuration := 0,
          redDotLastToggleTime := 3, redDotFreqPrintTime := 3, cursor := 4, pending := [],
          out := [Output.toggle Label.checkerboard 2 2,
            Output.report Label.checkerboard ⟨2, 1, 2, 2, some (1 / 2)⟩,
            Output.toggle Label.redDot 3 3,
            Output.report Label.redDot ⟨3, 1, 3, 3, some (1 / 3)⟩,
            Output.present 1 true true] }) := by
    simp [runMode, runLoop, iteration, initState, pollEvents, busyWait, demoConfig,
      secondsClock, frameDuration, reciprocal, fdiv, beforeFrame, frameBody, toggleCheckerboard,
      toggleRedDot, renderFrame, measuredFreq, isCancel]
  rw [h]
  simp [toggleReads, reports]

/-- C5, amended: the cancel signal is looked at only in the event poll at the top
of an iteration.  A quit or Escape event that is in the queue when the iteration
of state `s` polls, behind arrived events that do not cancel, makes the loop
return at that poll with status `cancelled`: the state is as before the poll,
only the queue is consumed up to the signal, so there is no toggle, report,
frame or clock read after the poll.  An iteration of a state `s2` whose poll
finds no cancel signal is not cancelled, whatever arrives later: unless its
frame wait runs out of fuel it toggles each flashing channel once. -/
theorem cancel_pending_at_poll_returns (cfg : Config) (clock : Nat → ℚ) (spin fuel : Nat)
    (s s2 : State) (pre post : List (Nat × Event)) (a : Nat) (e : Event)
    (hq : s.pending = pre ++ (a, e) :: post)
    (hpre : ∀ x ∈ pre, x.1 ≤ s.cursor ∧ isCancel x.2 = false) (ha : a ≤ s.cursor)
    (he : isCancel e = true) (hno : (pollEvents s2.cursor s2.pending).1 = false) :
    runLoop cfg clock spin (fuel + 1) s = (Status.cancelled, { s with pending := post }) ∧
      (iteration cfg clock spin s2).1 ≠ Status.cancelled ∧
      ((iteration cfg clock spin s2).1 = Status.outOfFuel ∨
        ∀ l, (toggleTimes l (iteration cfg clock spin s2).2.out).length
          = (toggleTimes l s2.out).length + (if flashes cfg l then 1 else 0)) := by
  have hp := pollEvents_cancel s.cursor pre post a e hpre ha he
  rw [← hq] at hp
  refine ⟨by simp [runLoop, iteration, hp], ?_, ?_⟩
  · rcases hp2 : pollEvents s2.cursor s2.pending with ⟨b, rest⟩
    rw [hp2] at hno
    simp only at hno
    subst hno
    unfold iteration
    rw [hp2]
    simp only
    rcases busyWait clock (frameDuration cfg) s2.lastFrameTime spin (clock s2.cursor)
      (s2.cursor + 1) with _ | ⟨now, cursor⟩
    · simp
    · simp only
      split <;> simp
  · rcases iteration_cases cfg clock spin s2 with ⟨h1 | h1, _⟩ | ⟨_, _, _, _, h2⟩
    · exfalso
      rcases hp2 : pollEvents s2.cursor s2.pending with ⟨b, rest⟩
      rw [hp2] at hno
      simp only at hno
      subst hno
      unfold iteration at h1
      rw [hp2] at h1
      simp only at h1
      rcases hb : busyWait clock (frameDuration cfg) s2.lastFrameTime spin (clock s2.cursor)
        (s2.cursor + 1) with _ | ⟨now, cursor⟩
      · rw [hb] at h1; simp at h1
      · rw [hb] at h1
        simp only at h1
        split at h1 <;> simp at h1
    · exact Or.inl h1
    · exact Or.inr h2

/-- Witness of `cancel_pending_at_poll_returns`: Escape behind another key press,
both in the queue at the first poll; and a quit that arrives after the first poll. -/
theorem cancel_pending_at_poll_returns_witness :
    (initState secondsClock [(0, Event.keydown 97), (1, Event.keydown 27)]).pending
        = [(0, Event.keydown 97)] ++ (1, Event.keydown 27) :: [] ∧
      (∀ x ∈ [((0 : Nat), Event.keydown 97)],
        x.1 ≤ (initState secondsClock [(0, Event.keydown 97), (1, Event.keydown 27)]).cursor ∧
          isCancel x.2 = false) ∧
      1 ≤ (initState secondsClock [(0, Event.keydown 97), (1, Event.keydown 27)]).cursor ∧
      isCancel (Event.keydown 27) = true ∧
      (pollEvents (initState secondsClock [(2, Event.quit)]).cursor
        (initState secondsClock [(2, Event.quit)]).pending).1 = false ∧
      (runLoop demoConfig secondsClock 5 (4 + 1)
          (initState secondsClock [(0, Event.keydown 97), (1, Event.keydown 27)])
        = (Status.cancelled,
          { initState secondsClock [(0, Event.keydown 97), (1, Event.keydown 27)] with
            pending := [] }) ∧
        (iteration demoConfig secondsClock 5 (initState secondsClock [(2, Event.quit)])).1
          ≠ Status.cancelled ∧
        ((iteration demoConfig secondsClock 5 (initState secondsClock [(2, Event.quit)])).1
            = Status.outOfFuel ∨
          ∀ l, (toggleTimes l (iteration demoConfig secondsClock 5
              (initState secondsClock [(2, Event.quit)])).2.out).length
            = (toggleTimes l (initState secondsClock [(2, Event.quit)]).out).length
              + (if flashes demoConfig l then 1 else 0))) :=
  ⟨rfl, by simp [initState, isCancel, SDLK_ESCAPE], by simp [initState], by decide,
    by simp [initState, pollEvents],
    cancel_pending_at_poll_returns demoConfig secondsClock 5 4
      (initState secondsClock [(0, Event.keydown 97), (1, Event.keydown 27)])
      (initState secondsClock [(2, Event.quit)])
      [(0, Event.keydown 97)] [] 1 (Event.keydown 27) rfl
      (by simp [initState, isCancel, SDLK_ESCAPE]) (by simp [initState]) (by decide)
      (by simp [initState, pollEvents])⟩

/-! ## A frequency that is not positive -/

theorem busyWait_infinite (clock : Nat → ℚ) (last : ℚ) (fuel : Nat) :
    ∀ now cursor, busyWait clock Duration.posInf last fuel now cursor = none := by
  induction fuel with
  | zero => intro now cursor; rfl
  | succ n ih => intro now cursor; simp [busyWait, beforeFrame, ih]

theorem busyWait_passes (clock : Nat → ℚ) (fd : Duration) (last now : ℚ) (fuel cursor : Nat)
    (h : beforeFrame (now - last) fd = false) :
    busyWait clock fd last (fuel + 1) now cursor = some (now, cursor) := by
  simp [busyWait, h]

/-- The frame duration of a negative frequency, or of `-0.0`, is below every
elapsed time that is not negative. -/
theorem beforeFrame_nonpositive (frequencyHz : ℚ) (negativeZero : Bool) (last now : ℚ)
    (hf : frequencyHz < 0 ∨ (frequencyHz = 0 ∧ negativeZero = true)) (h : last ≤ now) :
    beforeFrame (now - last) (reciprocal frequencyHz negativeZero) = false := by
  rcases hf with hf | ⟨hf, hz⟩
  · have h1 : (1 : ℚ) / frequencyHz < 0 := one_div_neg.mpr hf
    have h2 : ¬ (now - last < 1 / frequencyHz) := by
      intro h3; linarith
    simp only [reciprocal, if_neg (ne_of_lt hf), beforeFrame]
    exact decide_eq_false h2
  · simp [reciprocal, hf, hz, beforeFrame]

theorem runLoop_frames_le (cfg : Config) (clock : Nat → ℚ) (spin fuel : Nat) (s : State)
    (k : Nat) (hk : k ≤ (frames s.out).length) :
    k ≤ (frames (runLoop cfg clock spin fuel s).2.out).length := by
  apply runLoop_inv cfg clock spin (fun s => k ≤ (frames s.out).length) _ fuel s hk
  intro s hs
  rcases iteration_cases cfg clock spin s with ⟨_, h1, _⟩ | ⟨_, ⟨now, h1⟩, _⟩
  · rw [h1]; exact hs
  · rw [h1]; simp; omega

theorem runLoop_toggles_le (cfg : Config) (clock : Nat → ℚ) (spin fuel : Nat) (s : State)
    (l : Label) (k : Nat) (hk : k ≤ (toggleTimes l s.out).length) :
    k ≤ (toggleTimes l (runLoop cfg clock spin fuel s).2.out).length := by
  apply runLoop_inv cfg clock spin (fun s => k ≤ (toggleTimes l s.out).length) _ fuel s hk
  intro s hs
  rcases iteration_cases cfg clock spin s with ⟨_, h1, _⟩ | ⟨_, _, _, _, h1⟩
  · rw [h1]; exact hs
  · rw [h1 l]; omega

theorem whiteDotLoop_out_le (durationSeconds : Int) (frequencyHz : ℚ) (negativeZero : Bool)
    (clock : Nat → ℚ) (spin fuel : Nat) : ∀ (s : WhiteDotState) (k : Nat), k ≤ s.out.length →
      k ≤ (whiteDotLoop durationSeconds frequencyHz negativeZero clock spin fuel s).2.out.length := by
  induction fuel with
  | zero => intro s k hk; simpa [whiteDotLoop] using hk
  | succ n ih =>
    intro s k hk
    have hit : k ≤ (whiteDotIteration durationSeconds frequencyHz negativeZero clock spin
        s).2.out.length := by
      unfold whiteDotIteration
      rcases pollEvents s.cursor s.pending with ⟨b, rest⟩
      cases b
      · simp only
        rcases busyWait clock (reciprocal frequencyHz negativeZero) s.lastFrameTime spin
          (clock s.cursor) (s.cursor + 1) with _ | ⟨now, cursor⟩
        · exact hk
        · simp only
          split <;> simp <;> omega
      · exact hk
    unfold whiteDotLoop
    rcases h : whiteDotIteration durationSeconds frequencyHz negativeZero clock spin s
      with ⟨st, s1⟩
    rw [h] at hit
    cases st
    · exact ih s1 k hit
    · exact hit
    · exact hit
    · exact hit

/-- The first iteration of `runMode` with a negative frequency, or with `-0.0`,
presents a frame. -/
theorem iteration_negative (cfg : Config) (clock : Nat → ℚ) (events : List (Nat × Event))
    (spin : Nat)
    (hf : cfg.frequencyHz < 0 ∨ (cfg.frequencyHz = 0 ∧ cfg.frequencyNegativeZero = true))
    (hclock : clock 0 ≤ clock 1) (hpoll : (pollEvents 1 events).1 = false) :
    ((iteration cfg clock (spin + 1) (initState clock events)).1 = Status.expired ∨
        (iteration cfg clock (spin + 1) (initState clock events)).1 = Status.running) ∧
      1 ≤ (frames (iteration cfg clock (spin + 1) (initState clock events)).2.out).length ∧
      ∀ l, flashes cfg l = true →
        1 ≤ (toggleTimes l (iteration cfg clock (spin + 1) (initState clock events)).2.out).length := by
  rcases hp : pollEvents 1 events with ⟨b, rest⟩
  rw [hp] at hpoll
  simp only at hpoll
  subst hpoll
  have hw := busyWait_passes clock (frameDuration cfg) (clock 0) (clock 1) spin 2
    (beforeFrame_nonpositive _ _ _ _ hf hclock)
  have hit : iteration cfg clock (spin + 1) (initState clock events) =
      (if (cfg.durationSeconds : ℚ) ≤ clock 1 -
          (frameBody cfg clock (clock 1) { initState clock events with
            pending := rest, lastFrameTime := clock 1, cursor := 2 }).startTime
        then (Status.expired, frameBody cfg clock (clock 1) { initState clock events with
            pending := rest, lastFrameTime := clock 1, cursor := 2 })
        else (Status.running, frameBody cfg clock (clock 1) { initState clock events with
            pending := rest, lastFrameTime := clock 1, cursor := 2 })) := by
    simp only [iteration, initState, hp, hw]
  obtain ⟨k1, _, _, k4⟩ := frameBody_spec cfg clock (clock 1) { initState clock events with
            pending := rest, lastFrameTime := clock 1, cursor := 2 }
  rw [hit]
  split
  · refine ⟨Or.inl rfl, ?_, ?_⟩
    · simp only; rw [k1]; simp
    · intro l hl; simp only; rw [k4 l, hl]; simp
  · refine ⟨Or.inr rfl, ?_, ?_⟩
    · simp only; rw [k1]; simp
    · intro l hl; simp only; rw [k4 l, hl]; simp

theorem runMode_negative (cfg : Config) (clock : Nat → ℚ) (events : List (Nat × Event))
    (fuel : Nat)
    (hf : cfg.frequencyHz < 0 ∨ (cfg.frequencyHz = 0 ∧ cfg.frequencyNegativeZero = true))
    (hclock : clock 0 ≤ clock 1)
    (hpoll : (pollEvents 1 events).1 = false) (hfuel : 1 ≤ fuel) :
    1 ≤ (frames (runMode cfg clock events fuel).2.out).length ∧
      ∀ l, flashes cfg l = true →
        1 ≤ (toggleTimes l (runMode cfg clock events fuel).2.out).length := by
  obtain ⟨n, rfl⟩ : ∃ n, fuel = n + 1 := ⟨fuel - 1, by omega⟩
  obtain ⟨h1, h2, h3⟩ := iteration_negative cfg clock events n hf hclock hpoll
  unfold runMode runLoop
  rcases hit : iteration cfg clock (n + 1) (initState clock events) with ⟨st, s1⟩
  rw [hit] at h1 h2 h3
  cases st
  · exact ⟨runLoop_frames_le cfg clock _ n s1 1 h2,
      fun l hl => runLoop_toggles_le cfg clock _ n s1 l 1 (h3 l hl)⟩
  · simp at h1
  · exact ⟨h2, h3⟩
  · simp at h1

theorem flashingWhiteDot_negative (durationSeconds : Int) (frequencyHz : ℚ)
    (negativeZero : Bool) (clock : Nat → ℚ) (events : List (Nat × Event)) (fuel : Nat)
    (hf : frequencyHz < 0 ∨ (frequencyHz = 0 ∧ negativeZero = true))
    (hclock : clock 0 ≤ clock 1) (hpoll : (pollEvents 1 events).1 = false) (hfuel : 1 ≤ fuel) :
    1 ≤ (flashingWhiteDot durationSeconds frequencyHz negativeZero clock events
      fuel).2.out.length := by
  obtain ⟨n, rfl⟩ : ∃ n, fuel = n + 1 := ⟨fuel - 1, by omega⟩
  rcases hp : pollEvents 1 events with ⟨b, rest⟩
  rw [hp] at hpoll
  simp only at hpoll
  subst hpoll
  have hw := busyWait_passes clock (reciprocal frequencyHz negativeZero) (clock 0) (clock 1) n 2
    (beforeFrame_nonpositive _ _ _ _ hf hclock)
  unfold flashingWhiteDot whiteDotLoop
  have h1 : 1 ≤ (whiteDotIteration durationSeconds frequencyHz negativeZero clock (n + 1)
      { startTime := clock 0, lastFrameTime := clock 0, dotVisible := false, cursor := 1,
        pending := events, out := [] }).2.out.length ∧
      (whiteDotIteration durationSeconds frequencyHz negativeZero clock (n + 1)
      { startTime := clock 0, lastFrameTime := clock 0, dotVisible := false, cursor := 1,
        pending := events, out := [] }).1 ≠ Status.cancelled ∧
      (whiteDotIteration durationSeconds frequencyHz negativeZero clock (n + 1)
      { startTime := clock 0, lastFrameTime := clock 0, dotVisible := false, cursor := 1,
        pending := events, out := [] }).1 ≠ Status.outOfFuel := by
    simp only [whiteDotIteration, hp, hw]
    split <;> simp
  rcases hit : whiteDotIteration durationSeconds frequencyHz negativeZero clock (n + 1)
      { startTime := clock 0, lastFrameTime := clock 0, dotVisible := false, cursor := 1,
        pending := events, out := [] } with ⟨st, s1⟩
  rw [hit] at h1
  cases st
  · exact whiteDotLoop_out_le _ _ _ _ _ _ s1 1 h1.1
  · exact h1.1
  · exact h1.1
  · exact h1.1

theorem runMode_zero (cfg : Config) (clock : Nat → ℚ) (events : List (Nat × Event))
    (fuel : Nat) (hf : cfg.frequencyHz = 0) (hz : cfg.frequencyNegativeZero = false)
    (hpoll : (pollEvents 1 events).1 = false) (hfuel : 1 ≤ fuel) :
    runMode cfg clock events fuel
      = (Status.outOfFuel, { initState clock events with pending := (pollEvents 1 events).2 }) := by
  obtain ⟨n, rfl⟩ : ∃ n, fuel = n + 1 := ⟨fuel - 1, by omega⟩
  rcases hp : pollEvents 1 events with ⟨b, rest⟩
  rw [hp] at hpoll
  simp only at hpoll
  subst hpoll
  simp [runMode, runLoop, iteration, initState, hp, frameDuration, reciprocal, hf, hz,
    busyWait_infinite]

theorem flashingWhiteDot_zero (durationSeconds : Int) (clock : Nat → ℚ)
    (events : List (Nat × Event)) (fuel : Nat) (hpoll : (pollEvents 1 events).1 = false)
    (hfuel : 1 ≤ fuel) :
    flashingWhiteDot durationSeconds 0 false clock events fuel
      = (Status.outOfFuel,
        { startTime := clock 0, lastFrameTime := clock 0, dotVisible := false, cursor := 1,
          pending := (pollEvents 1 events).2, out := [] }) := by
  obtain ⟨n, rfl⟩ : ∃ n, fuel = n + 1 := ⟨fuel - 1, by omega⟩
  rcases hp : pollEvents 1 events with ⟨b, rest⟩
  rw [hp] at hpoll
  simp only at hpoll
  subst hpoll
  simp [flashingWhiteDot, whiteDotLoop, whiteDotIteration, hp, reciprocal, busyWait_infinite]

set_option maxRecDepth 4000 in
/-- C4, refuted: called with `frequencyHz = -1`, `runMode` toggles the
checkerboard and presents a frame, and `flashingWhiteDot` presents a frame with
the dot toggled to visible; neither rejects the call. -/
theorem negative_frequency_not_rejected :
    negativeConfig.frequencyHz ≤ 0 ∧
      (runMode negativeConfig secondsClock [] 3).1 = Status.expired ∧
      toggleTimes Label.checkerboard (runMode negativeConfig secondsClock [] 3).2.out = [2] ∧
      frames (runMode negativeConfig secondsClock [] 3).2.out = [(1, true, true)] ∧
      (flashingWhiteDot 0 (-1) false secondsClock [] 3).1 = Status.expired ∧
      (flashingWhiteDot 0 (-1) false secondsClock [] 3).2.out = [(1, true)] := by
  refine ⟨by norm_num [negativeConfig], ?_, ?_, ?_, ?_, ?_⟩ <;>
    norm_num [runMode, runLoop, iteration, initState, pollEvents, busyWait, negativeConfig,
      secondsClock, frameDuration, reciprocal, fdiv, beforeFrame, frameBody, toggleCheckerboard,
      toggleRedDot, renderFrame, measuredFreq, toggleTimes, frames, flashingWhiteDot,
      whiteDotLoop, whiteDotIteration] <;>
    rfl

/-- C4, amended: `runMode` and `flashingWhiteDot` do not check `frequencyHz`.
With a negative frequency or the `double` `-0.0` (frame duration negative or
`-inf`), a clock that does not go back between its first two reads and no
cancel signal at the first poll, the frame wait is passed at its first read:
`runMode` presents at least one frame and toggles each flashing channel at least
once, and `flashingWhiteDot` presents at least one frame.  With the frequency
`0.0` instead, the frame duration is `+inf` and the first frame wait never ends:
for every fuel the run is out of fuel in the state of mode start, with no
toggle, no frame and no report. -/
theorem nonpositive_frequency_unchecked (cfg : Config) (clock : Nat → ℚ)
    (events : List (Nat × Event)) (fuel : Nat)
    (hf : cfg.frequencyHz < 0 ∨ (cfg.frequencyHz = 0 ∧ cfg.frequencyNegativeZero = true))
    (hclock : clock 0 ≤ clock 1) (hpoll : (pollEvents 1 events).1 = false) (hfuel : 1 ≤ fuel) :
    (1 ≤ (frames (runMode cfg clock events fuel).2.out).length ∧
        (∀ l, flashes cfg l = true →
          1 ≤ (toggleTimes l (runMode cfg clock events fuel).2.out).length) ∧
        1 ≤ (flashingWhiteDot cfg.durationSeconds cfg.frequencyHz cfg.frequencyNegativeZero
          clock events fuel).2.out.length) ∧
      (runMode { cfg with frequencyHz := 0, frequencyNegativeZero := false } clock events fuel
          = (Status.outOfFuel,
            { initState clock events with pending := (pollEvents 1 events).2 }) ∧
        flashingWhiteDot cfg.durationSeconds 0 false clock events fuel
          = (Status.outOfFuel,
            { startTime := clock 0, lastFrameTime := clock 0, dotVisible := false, cursor := 1,
              pending := (pollEvents 1 events).2, out := [] })) :=
  ⟨⟨(runMode_negative cfg clock events fuel hf hclock hpoll hfuel).1,
      (runMode_negative cfg clock events fuel hf hclock hpoll hfuel).2,
      flashingWhiteDot_negative _ _ _ clock events fuel hf hclock hpoll hfuel⟩,
    runMode_zero _ clock events fuel rfl rfl hpoll hfuel,
    flashingWhiteDot_zero _ clock events fuel hpoll hfuel⟩

/-- Witness of `nonpositive_frequency_unchecked`: the example mode at `-0.0` Hz on
the clock that reads whole seconds. -/
theorem nonpositive_frequency_unchecked_witness :
    (negativeZeroConfig.frequencyHz < 0 ∨
        (negativeZeroConfig.frequencyHz = 0 ∧ negativeZeroConfig.frequencyNegativeZero = true)) ∧
      secondsClock 0 ≤ secondsClock 1 ∧
      (pollEvents 1 []).1 = false ∧ 1 ≤ 3 ∧
      ((1 ≤ (frames (runMode negativeZeroConfig secondsClock [] 3).2.out).length ∧
        (∀ l, flashes negativeZeroConfig l = true →
          1 ≤ (toggleTimes l (runMode negativeZeroConfig secondsClock [] 3).2.out).length) ∧
        1 ≤ (flashingWhiteDot negativeZeroConfig.durationSeconds negativeZeroConfig.frequencyHz
          negativeZeroConfig.frequencyNegativeZero secondsClock [] 3).2.out.length) ∧
      (runMode { negativeZeroConfig with frequencyHz := 0, frequencyNegativeZero := false }
            secondsClock [] 3
          = (Status.outOfFuel,
            { initState secondsClock [] with pending := (pollEvents 1 []).2 }) ∧
        flashingWhiteDot negativeZeroConfig.durationSeconds 0 false secondsClock [] 3
          = (Status.outOfFuel,
            { startTime := secondsClock 0, lastFrameTime := secondsClock 0, dotVisible := false,
              cursor := 1, pending := (pollEvents 1 []).2, out := [] }))) :=
  ⟨Or.inr ⟨rfl, rfl⟩, by norm_num [secondsClock], rfl, by decide,
    nonpositive_frequency_unchecked negativeZeroConfig secondsClock [] 3
      (Or.inr ⟨rfl, rfl⟩) (by norm_num [secondsClock]) rfl (by decide)⟩

/-! ## A run on a clock that paces the frames exactly -/

theorem pollEvents_no_cancel (cursor : Nat) (q : List (Nat × Event))
    (hq : ∀ x ∈ q, isCancel x.2 = false) :
    (pollEvents cursor q).1 = false ∧ ∀ x ∈ (pollEvents cursor q).2, isCancel x.2 = false := by
  induction q with
  | nil => simp [pollEvents]
  | cons x q ih =>
    obtain ⟨a, e⟩ := x
    have he := hq (a, e) (by simp)
    have ih1 := ih (fun y hy => hq y (by simp [hy]))
    simp only at he
    unfold pollEvents
    split
    · exact ⟨rfl, hq⟩
    · simp only [he, Bool.false_eq_true, if_false]
      exact ih1

theorem busyWait_paced (clock : Nat → ℚ) (d last : ℚ) (j : Nat) (hj : ¬ (clock j - last < d)) :
    ∀ (fuel c : Nat), c ≤ j → j - c < fuel → (∀ k, c ≤ k → k < j → clock k - last < d) →
      busyWait clock (Duration.finite d) last fuel (clock c) (c + 1)
        = some (clock j, j + 1) := by
  intro fuel
  induction fuel with
  | zero => intro c _ h _; omega
  | succ n ih =>
    intro c hc hfuel hbelow
    unfold busyWait
    by_cases hcj : c = j
    · subst hcj
      simp [beforeFrame, hj]
    · have hlt : c < j := by omega
      have hb := hbelow c (le_refl c) hlt
      simp only [beforeFrame, hb, decide_True, if_true]
      exact ih (c + 1) (by omega) (by omega) (fun k hk1 hk2 => hbelow k (by omega) hk2)

theorem frameBody_frame (cfg : Config) (clock : Nat → ℚ) (now : ℚ) (s : State) :
    (frameBody cfg clock now s).startTime = s.startTime ∧
      (frameBody cfg clock now s).lastFrameTime = s.lastFrameTime ∧
      (frameBody cfg clock now s).pending = s.pending ∧
      (frameBody cfg clock now s).cursor + 1 = s.cursor + readsPerFrame cfg := by
  have hc := toggleCheckerboard_flags cfg clock s
  have hr := toggleRedDot_flags cfg clock (toggleCheckerboard cfg clock s)
  simp only [frameBody, renderFrame]
  refine ⟨by rw [hr.2.2.1, hc.2.2.1], by rw [hr.2.2.2.2.1, hc.2.2.2.2.1],
    by rw [hr.2.2.2.1, hc.2.2.2.1], ?_⟩
  rw [hr.2.2.2.2.2, hc.2.2.2.2.2]
  simp only [readsPerFrame]
  omega

theorem cursorAfter_pos (cfg : Config) (idx : Nat → Nat) (n : Nat) :
    1 ≤ cursorAfter cfg idx n := by
  unfold cursorAfter readsPerFrame
  split <;> omega

theorem Paced.idx_lt (cfg : Config) (clock : Nat → ℚ) (idx : Nat → Nat) (N : Nat)
    (hp : Paced cfg clock idx N) : ∀ n, n < N → idx (n + 1) ≤ idx N := by
  intro n hn
  obtain ⟨j, hj⟩ : ∃ j, N = n + 1 + j := ⟨N - (n + 1), by omega⟩
  subst hj
  clear hn
  induction j with
  | zero => exact le_refl _
  | succ j ih =>
    have h1 := ih (fun m hm => hp m (by omega))
    have h2 := (hp (n + 1 + j) (by omega)).1
    have h3 : idx (n + 1 + j) < cursorAfter cfg idx (n + 1 + j) := by
      unfold cursorAfter readsPerFrame
      rw [if_neg (by omega)]
      omega
    have h4 : n + 1 + (j + 1) = n + 1 + j + 1 := by omega
    rw [h4]
    omega

theorem Paced.le_idx (cfg : Config) (clock : Nat → ℚ) (idx : Nat → Nat) (N : Nat)
    (hp : Paced cfg clock idx N) : ∀ n, n < N → n + 1 ≤ idx (n + 1) := by
  intro n
  induction n with
  | zero =>
    intro h
    have := (hp 0 h).1
    simpa [cursorAfter] using this
  | succ n ih =>
    intro h
    have h1 := ih (by omega)
    have h2 := (hp (n + 1) h).1
    have h3 : idx (n + 1) < cursorAfter cfg idx (n + 1) := by
      unfold cursorAfter readsPerFrame
      rw [if_neg (by omega)]
      omega
    omega

/-- One iteration of a paced run: from the state after `n` frames to the state
after `n + 1` frames, ending the run exactly when the duration is reached. -/
theorem iteration_paced (cfg : Config) (clock : Nat → ℚ) (idx : Nat → Nat) (N spin : Nat)
    (hf : 0 < cfg.frequencyHz) (hp : Paced cfg clock idx N) (hspin : idx N < spin)
    (n : Nat) (hn : n < N) (s : State) (hs : AfterFrames cfg clock idx n s) :
    AfterFrames cfg clock idx (n + 1) (iteration cfg clock spin s).2 ∧
      (iteration cfg clock spin s).1
        = (if (cfg.durationSeconds : ℚ) ≤ ((n : ℚ) + 1) / cfg.frequencyHz then Status.expired
          else Status.running) := by
  obtain ⟨h1, h2, h3, h4, h5, h6⟩ := hs
  obtain ⟨p1, p2, p3⟩ := hp n hn
  obtain ⟨q1, q2⟩ := pollEvents_no_cancel s.cursor s.pending h4
  have hfd : frameDuration cfg = Duration.finite (1 / cfg.frequencyHz) := by
    simp [frameDuration, reciprocal, ne_of_gt hf]
  have hend : ¬ (clock (idx (n + 1)) - s.lastFrameTime < 1 / cfg.frequencyHz) := by
    rw [p3, h2]
    have : clock 0 + ((n : ℚ) + 1) / cfg.frequencyHz - (clock 0 + (n : ℚ) / cfg.frequencyHz)
        = 1 / cfg.frequencyHz := by ring
    rw [this]
    exact lt_irrefl _
  have hidx := Paced.idx_lt cfg clock idx N hp n hn
  have hpos := cursorAfter_pos cfg idx n
  have hw := busyWait_paced clock (1 / cfg.frequencyHz) s.lastFrameTime (idx (n + 1)) hend spin
    s.cursor (by rw [h3]; exact p1) (by omega)
    (fun k hk1 hk2 => by rw [h2]; exact p2 k (by rw [← h3]; exact hk1) hk2)
  rcases hpe : pollEvents s.cursor s.pending with ⟨b, rest⟩
  rw [hpe] at q1 q2
  simp only at q1 q2
  subst q1
  have hit : iteration cfg clock spin s =
      (if (cfg.durationSeconds : ℚ) ≤ clock (idx (n + 1)) -
          (frameBody cfg clock (clock (idx (n + 1)))
            { s with pending := rest, lastFrameTime := clock (idx (n + 1)),
                     cursor := idx (n + 1) + 1 }).startTime
        then (Status.expired, frameBody cfg clock (clock (idx (n + 1)))
            { s with pending := rest, lastFrameTime := clock (idx (n + 1)),
                     cursor := idx (n + 1) + 1 })
        else (Status.running, frameBody cfg clock (clock (idx (n + 1)))
            { s with pending := rest, lastFrameTime := clock (idx (n + 1)),
                     cursor := idx (n + 1) + 1 })) := by
    simp only [iteration, hpe, hfd, hw]
  have hex : ∃ s1 : State, s1 = ({ s with pending := rest, lastFrameTime := clock (idx (n + 1)),
                                            cursor := idx (n + 1) + 1 } : State) := ⟨_, rfl⟩
  obtain ⟨s1, hs1⟩ := hex
  rw [← hs1] at hit
  have e1 : s1.startTime = s.startTime := by rw [hs1]
  have e2 : s1.lastFrameTime = clock (idx (n + 1)) := by rw [hs1]
  have e3 : s1.cursor = idx (n + 1) + 1 := by rw [hs1]
  have e4 : s1.pending = rest := by rw [hs1]
  have e5 : s1.out = s.out := by rw [hs1]
  obtain ⟨k1, _, _, k4⟩ := frameBody_spec cfg clock (clock (idx (n + 1))) s1
  obtain ⟨f1, f2, f3, f4⟩ := frameBody_frame cfg clock (clock (idx (n + 1))) s1
  have hel : clock (idx (n + 1)) - (frameBody cfg clock (clock (idx (n + 1))) s1).startTime
      = ((n : ℚ) + 1) / cfg.frequencyHz := by
    rw [f1, e1, h1, p3]
    ring
  have hA : AfterFrames cfg clock idx (n + 1) (frameBody cfg clock (clock (idx (n + 1))) s1) := by
    refine ⟨by rw [f1, e1]; exact h1, ?_, ?_, by rw [f3, e4]; exact q2, ?_, ?_⟩
    · rw [f2, e2, p3]; push_cast; ring
    · have : cursorAfter cfg idx (n + 1) = idx (n + 1) + readsPerFrame cfg := by
        simp [cursorAfter]
      rw [this]
      rw [e3] at f4
      omega
    · rw [k1, e5]; simp [h5]
    · intro l
      rw [k4 l, e5, h6 l]
      split <;> simp
  rw [hit, hel]
  split
  · exact ⟨hA, rfl⟩
  · exact ⟨hA, rfl⟩

/-- The rest of a paced run from the state after `n` frames: it ends by expiry
after frame `N`. -/
theorem runLoop_paced (cfg : Config) (clock : Nat → ℚ) (idx : Nat → Nat) (N spin : Nat)
    (hf : 0 < cfg.frequencyHz) (hp : Paced cfg clock idx N) (hspin : idx N < spin)
    (hN : (cfg.durationSeconds : ℚ) ≤ (N : ℚ) / cfg.frequencyHz)
    (hmin : ∀ n, 1 ≤ n → n < N → (n : ℚ) / cfg.frequencyHz < (cfg.durationSeconds : ℚ)) :
    ∀ (j n fuel : Nat) (s : State), n + j + 1 = N → j < fuel → AfterFrames cfg clock idx n s →
      (runLoop cfg clock spin fuel s).1 = Status.expired ∧
        AfterFrames cfg clock idx N (runLoop cfg clock spin fuel s).2 := by
  intro j
  induction j with
  | zero =>
    intro n fuel s hnN hfuel hs
    obtain ⟨m, rfl⟩ : ∃ m, fuel = m + 1 := ⟨fuel - 1, by omega⟩
    obtain ⟨h1, h2⟩ := iteration_paced cfg clock idx N spin hf hp hspin n (by omega) s hs
    have hn1 : n + 1 = N := by omega
    have hcast : ((n : ℚ) + 1) = (N : ℚ) := by rw [← hn1]; push_cast; ring
    rw [hcast, if_pos hN] at h2
    unfold runLoop
    rcases hit : iteration cfg clock spin s with ⟨st, s1⟩
    rw [hit] at h1 h2
    simp only at h2
    subst h2
    rw [hn1] at h1
    exact ⟨rfl, h1⟩
  | succ j ih =>
    intro n fuel s hnN hfuel hs
    obtain ⟨m, rfl⟩ : ∃ m, fuel = m + 1 := ⟨fuel - 1, by omega⟩
    obtain ⟨h1, h2⟩ := iteration_paced cfg clock idx N spin hf hp hspin n (by omega) s hs
    have hlt := hmin (n + 1) (by omega) (by omega)
    have hcast : ((n : ℚ) + 1) = ((n + 1 : Nat) : ℚ) := by push_cast; ring
    rw [hcast, if_neg (not_le.mpr hlt)] at h2
    unfold runLoop
    rcases hit : iteration cfg clock spin s with ⟨st, s1⟩
    rw [hit] at h1 h2
    simp only at h2
    subst h2
    exact ih (n + 1) m s1 (by omega) (by omega) h1

/-- C6: over exact arithmetic, for every `frequencyHz > 0` and `durationSeconds ≥ 0`,
with no cancel signal in the queue and a clock that paces `N` frames exactly
(the frame wait of iteration `n` ends at a read stamped `n / frequencyHz` after
mode start), where `N` is the least positive integer with
`N / frequencyHz ≥ durationSeconds`: with enough fuel `runMode` returns by expiry
having presented exactly `N` frames and toggled each flashing channel exactly `N`
times (a channel that does not flash, never); the elapsed time at exit is
`N / frequencyHz`, at least the duration and at most one frame period more. -/
theorem paced_run_frame_count (cfg : Config) (clock : Nat → ℚ) (events : List (Nat × Event))
    (idx : Nat → Nat) (N fuel : Nat) (hf : 0 < cfg.frequencyHz) (hd : 0 ≤ cfg.durationSeconds)
    (hN1 : 1 ≤ N) (hN : (cfg.durationSeconds : ℚ) ≤ (N : ℚ) / cfg.frequencyHz)
    (hmin : ∀ n, 1 ≤ n → n < N → (n : ℚ) / cfg.frequencyHz < (cfg.durationSeconds : ℚ))
    (hev : ∀ x ∈ events, isCancel x.2 = false) (hp : Paced cfg clock idx N)
    (hfuel : idx N < fuel) :
    (runMode cfg clock events fuel).1 = Status.expired ∧
      (frames (runMode cfg clock events fuel).2.out).length = N ∧
      (∀ l, (toggleTimes l (runMode cfg clock events fuel).2.out).length
        = if flashes cfg l then N else 0) ∧
      (runMode cfg clock events fuel).2.lastFrameTime - (runMode cfg clock events fuel).2.startTime
        = (N : ℚ) / cfg.frequencyHz ∧
      (cfg.durationSeconds : ℚ) ≤ (runMode cfg clock events fuel).2.lastFrameTime
        - (runMode cfg clock events fuel).2.startTime ∧
      (runMode cfg clock events fuel).2.lastFrameTime - (runMode cfg clock events fuel).2.startTime
        ≤ (cfg.durationSeconds : ℚ) + 1 / cfg.frequencyHz := by
  have hle := Paced.le_idx cfg clock idx N hp (N - 1) (by omega)
  have hN2 : N - 1 + 1 = N := by omega
  rw [hN2] at hle
  have h0 : AfterFrames cfg clock idx 0 (initState clock events) := by
    refine ⟨rfl, by simp [initState], by simp [initState, cursorAfter], hev,
      by simp [initState, frames], ?_⟩
    intro l
    simp [initState, toggleTimes]
  obtain ⟨h1, h2, h3, _, _, h6, h7⟩ := runLoop_paced cfg clock idx N fuel hf hp hfuel hN hmin
    (N - 1) 0 fuel (initState clock events) (by omega) (by omega) h0
  have hel : (runMode cfg clock events fuel).2.lastFrameTime
      - (runMode cfg clock events fuel).2.startTime = (N : ℚ) / cfg.frequencyHz := by
    unfold runMode
    rw [h2, h3]; ring
  refine ⟨h1, h6, h7, hel, by rw [hel]; exact hN, ?_⟩
  rw [hel]
  by_cases hone : N = 1
  · subst hone
    have : (0 : ℚ) ≤ (cfg.durationSeconds : ℚ) := by exact_mod_cast hd
    push_cast
    linarith
  · have hlt := hmin (N - 1) (by omega) (by omega)
    have hcast : ((N - 1 : Nat) : ℚ) = (N : ℚ) - 1 := by
      rw [Nat.cast_sub hN1]; simp
    rw [hcast] at hlt
    have : (N : ℚ) / cfg.frequencyHz = ((N : ℚ) - 1) / cfg.frequencyHz + 1 / cfg.frequencyHz := by
      ring
    linarith

theorem scenario_paced :
    Paced scenarioConfig (pacedClock 3 15) (fun n => 3 * n - 2) 30 := by
  intro n _
  have hc : cursorAfter scenarioConfig (fun n => 3 * n - 2) n = 3 * n + 1 := by
    unfold cursorAfter
    split
    · omega
    · simp only [readsPerFrame, scenarioConfig, if_true]; omega
  have hi : 3 * (n + 1) - 2 = 3 * n + 1 := by omega
  simp only [hc, hi]
  refine ⟨le_refl _, fun k h1 h2 => by omega, ?_⟩
  have h3 : (3 * n + 1 + 3 - 1) / 3 = n + 1 := by omega
  simp only [pacedClock, h3, scenarioConfig]
  norm_num

/-- Witness of `paced_run_frame_count`: the scenario at 15 Hz for 2 seconds, on
the clock that advances by one period per iteration: 30 frames. -/
theorem paced_run_frame_count_witness :
    (runMode scenarioConfig (pacedClock 3 15) [] 89).1 = Status.expired ∧
      (frames (runMode scenarioConfig (pacedClock 3 15) [] 89).2.out).length = 30 ∧
      (∀ l, (toggleTimes l (runMode scenarioConfig (pacedClock 3 15) [] 89).2.out).length
        = if flashes scenarioConfig l then 30 else 0) ∧
      (runMode scenarioConfig (pacedClock 3 15) [] 89).2.lastFrameTime
          - (runMode scenarioConfig (pacedClock 3 15) [] 89).2.startTime
        = ((30 : Nat) : ℚ) / scenarioConfig.frequencyHz ∧
      (scenarioConfig.durationSeconds : ℚ) ≤
        (runMode scenarioConfig (pacedClock 3 15) [] 89).2.lastFrameTime
          - (runMode scenarioConfig (pacedClock 3 15) [] 89).2.startTime ∧
      (runMode scenarioConfig (pacedClock 3 15) [] 89).2.lastFrameTime
          - (runMode scenarioConfig (pacedClock 3 15) [] 89).2.startTime
        ≤ (scenarioConfig.durationSeconds : ℚ) + 1 / scenarioConfig.frequencyHz :=
  paced_run_frame_count scenarioConfig (pacedClock 3 15) [] (fun n => 3 * n - 2) 30 89
    (by norm_num [scenarioConfig]) (by decide) (by decide)
    (by norm_num [scenarioConfig])
    (by
      intro n _ h2
      have h3 : (n : ℚ) < 30 := by exact_mod_cast h2
      simp only [scenarioConfig]
      rw [div_lt_iff₀ (by norm_num)]
      push_cast
      linarith)
    (by simp) scenario_paced (by decide)

end FlashingLightVideo
